import Mathlib

set_option maxHeartbeats 1000000

/-!
Verification of the cache-empty single-flight proxy coordinator.

The development shallowly embeds the Go package `proxy` (files
`cache_empty_handler.go` et al.): the proxy-call dispatch function
`handleCacheEmpty`, the handler constructor `NewCacheEmptyHandler`, and the
single-flight coordinator `CacheEmptyHandler.handle` / `getOrCreateLock`.

Modelling decisions, in order of appearance:

* `proxyproto` messages become plain structures; Go `nil` pointers become
  `Option`.
* A proxy (`CacheEmptyProxy`) is its observable behaviour: a function from a
  request to the `(response, error)` pair its `ProxyCacheEmpty` returns.
* The registry `map[string]CacheEmptyProxy` is embedded as the *iteration
  sequence* the Go `range` statement presents to `handleCacheEmpty`: a list of
  `(name, proxy-or-nil)` entries.  Go randomises map iteration order, so two
  executions over the same map may present two different permutations; the
  order-sensitivity of the dispatch is studied over `List.Perm`.
* `handleCacheEmpty` additionally returns the log entries it emits and the
  names of the proxies it actually calls, so that "exactly one transport call"
  is a statement about data.
* The concurrent coordinator is an interleaving small-step machine
  (`stepThread` / `runSched`): each `handle` caller is a thread with a program
  counter mirroring the statements of the Go function; the shared `sync.Map`
  is a function from channel name to lock identifier; `LoadOrStore` is a
  single atomic step, as in `sync.Map`.  Timer expiry and context
  cancellation are scheduler choices (`SelChoice.selTimer`, `selCtx`) whose
  enabledness mirrors the `select` in the source; real time is abstracted
  into which choice fires.
-/

/-- `proxyproto.NotifyCacheEmptyResult`: result payload with a `populated`
flag. -/
structure NotifyCacheEmptyResult where
  populated : Bool
deriving DecidableEq, Repr

/-- `proxyproto.NotifyCacheEmptyResponse`: holds a possibly-nil pointer to a
result. -/
structure NotifyCacheEmptyResponse where
  result : Option NotifyCacheEmptyResult
deriving DecidableEq, Repr

/-- `proxyproto.NotifyCacheEmptyRequest`: carries the channel identifier. -/
structure NotifyCacheEmptyRequest where
  channel : String
deriving DecidableEq, Repr

/-- Go `error` values that appear in this core: backend/transport errors
(carrying a message), and the two context errors. -/
inductive GoError where
  | errMsg (msg : String)
  | canceled
  | deadlineExceeded
deriving DecidableEq, Repr

/-- `ErrLockTimeout` from the source (declared there, never returned by
`handle`). -/
def ErrLockTimeout : GoError := GoError.errMsg "timeout waiting for cache empty lock"

/-- A `CacheEmptyProxy` is abstracted by the behaviour of its
`ProxyCacheEmpty` method: the `(response, error)` pair returned for a
request. -/
abbrev CacheEmptyProxy : Type :=
  NotifyCacheEmptyRequest → Option NotifyCacheEmptyResponse × Option GoError

/-- The registry `map[string]CacheEmptyProxy` as the entry sequence one Go
`range` traversal presents: entry name and proxy (`none` models a `nil`
interface value stored in the map). -/
abbrev Registry : Type := List (String × Option CacheEmptyProxy)

/-- Log entries emitted by the embedded code (zerolog calls in the source). -/
inductive LogEntry where
  | errorNilProxy (proxyName : String)
  | errorProxyCall (proxyName : String) (channel : String) (e : GoError)
  | warnLockTimeout (channel : String) (timeout : Int)
deriving DecidableEq, Repr

/-- Everything one invocation of `handleCacheEmpty` produces: the returned
`(response, error)` pair, the log entries emitted, and the names of the
proxies whose `ProxyCacheEmpty` was invoked, in order. -/
structure DispatchOutcome where
  resp : Option NotifyCacheEmptyResponse
  err : Option GoError
  logs : List LogEntry
  calls : List String
deriving DecidableEq, Repr

/-- `handleCacheEmpty` from the source: iterate the registry entries; log and
skip `nil` entries; call the first usable proxy and return its error
(`return nil, err`) or its response (`return resp, nil`) immediately; if no
entry was usable return the default response
`&NotifyCacheEmptyResponse{Result: &NotifyCacheEmptyResult{}}` with nil
error. -/
def handleCacheEmpty (req : NotifyCacheEmptyRequest) : Registry → DispatchOutcome
  | [] => ⟨some ⟨some ⟨false⟩⟩, none, [], []⟩
  | (name, none) :: rest =>
    let r := handleCacheEmpty req rest
    ⟨r.resp, r.err, LogEntry.errorNilProxy name :: r.logs, r.calls⟩
  | (name, some p) :: _ =>
    match p req with
    | (_, some e) => ⟨none, some e, [LogEntry.errorProxyCall name req.channel e], [name]⟩
    | (resp, none) => ⟨resp, none, [], [name]⟩

/-- `time.Second` in Go's `time.Duration` unit (nanoseconds), as used by
`5 * time.Second` in `NewCacheEmptyHandler`. -/
def timeSecond : Int := 1000000000

/-- `CacheEmptyHandlerConfig`: proxies plus the `LockTimeout` duration
(`0` = unset). -/
structure CacheEmptyHandlerConfig where
  proxies : Registry
  lockTimeout : Int

/-- The `CacheEmptyHandler` value built by the constructor: the registry and
the resolved lock timeout. -/
structure CacheEmptyHandler where
  proxies : Registry
  lockTimeout : Int

/-- `NewCacheEmptyHandler`: defaults `LockTimeout` to `5 * time.Second` when
the configured value is zero. -/
def NewCacheEmptyHandler (config : CacheEmptyHandlerConfig) : CacheEmptyHandler :=
  { proxies := config.proxies
    lockTimeout := if config.lockTimeout = 0 then 5 * timeSecond else config.lockTimeout }

/-! ## Dispatch-level helper lemmas -/

/-- Dispatch over a registry traversal whose entries are all `nil`: the
default empty-result response, no error, one error log per nil entry, and no
proxy call. -/
theorem handleCacheEmpty_allNil (req : NotifyCacheEmptyRequest) :
    ∀ (proxies : Registry), (∀ e ∈ proxies, e.2 = none) →
      handleCacheEmpty req proxies =
        ⟨some ⟨some ⟨false⟩⟩, none,
          proxies.map (fun e0 => LogEntry.errorNilProxy e0.1), []⟩ := by
  intro proxies
  induction proxies with
  | nil => intro _; rfl
  | cons hd tl ih =>
    intro hnil
    obtain ⟨name, p⟩ := hd
    have hp : p = none := hnil (name, p) (List.mem_cons_self _ _)
    subst hp
    have htl : ∀ e ∈ tl, e.2 = none := fun e he => hnil e (List.mem_cons_of_mem _ he)
    simp only [handleCacheEmpty, ih htl, List.map_cons]

/-- Dispatch where the traversal is: some all-`nil` prefix, then a usable
entry `(name, p)`, then arbitrary entries.  The nil prefix is logged and
skipped, `p` is called, and its own error or response is returned at once;
entries after it are never touched. -/
theorem handleCacheEmpty_firstUsable (req : NotifyCacheEmptyRequest)
    (name : String) (p : CacheEmptyProxy) (post : Registry) :
    ∀ (pre : Registry), (∀ e ∈ pre, e.2 = none) →
      handleCacheEmpty req (pre ++ (name, some p) :: post) =
        ⟨if (p req).2.isSome then none else (p req).1,
          (p req).2,
          pre.map (fun e0 => LogEntry.errorNilProxy e0.1) ++
            (match (p req).2 with
              | some e => [LogEntry.errorProxyCall name req.channel e]
              | none => []),
          [name]⟩ := by
  intro pre
  induction pre with
  | nil =>
    intro _
    simp only [List.nil_append, List.map_nil]
    rcases hp : p req with ⟨r0, e0⟩
    cases e0 with
    | none => simp [handleCacheEmpty, hp]
    | some e => simp [handleCacheEmpty, hp]
  | cons hd tl ih =>
    intro hnil
    obtain ⟨nm, q⟩ := hd
    have hq : q = none := hnil (nm, q) (List.mem_cons_self _ _)
    subst hq
    have htl : ∀ e ∈ tl, e.2 = none := fun e he => hnil e (List.mem_cons_of_mem _ he)
    simp only [List.cons_append, handleCacheEmpty, List.append_eq, ih htl, List.map_cons]

/-! ## Claims C6, C7, C10, C8 -/

/-- Claim C6: for every registry traversal, `handleCacheEmpty` skips and logs
each nil entry without aborting; on the first non-nil entry it calls the
proxy, and returns that call's error immediately if it fails, or that call's
response immediately if it succeeds; exactly one proxy is called and no
later registry entry is ever tried. -/
theorem c6_dispatch_first_usable (req : NotifyCacheEmptyRequest)
    (pre post : Registry) (name : String) (p : CacheEmptyProxy)
    (hpre : ∀ e ∈ pre, e.2 = none) :
    handleCacheEmpty req (pre ++ (name, some p) :: post) =
      ⟨if (p req).2.isSome then none else (p req).1,
        (p req).2,
        pre.map (fun e0 => LogEntry.errorNilProxy e0.1) ++
          (match (p req).2 with
            | some e => [LogEntry.errorProxyCall name req.channel e]
            | none => []),
        [name]⟩ :=
  handleCacheEmpty_firstUsable req name p post pre hpre

/-- Witness for C6: a nil entry followed by a usable failing proxy; the nil
entry is logged and skipped, the proxy's error is returned, the entry after
the proxy is never called. -/
theorem c6_dispatch_first_usable_witness :
    (∀ e ∈ ([("broken", none)] : Registry), e.2 = none) ∧
    handleCacheEmpty ⟨"ch"⟩
        ([("broken", none)] ++
          ("good", some (fun _ => (none, some (GoError.errMsg "boom")))) ::
            ([("later", some (fun _ => (some ⟨some ⟨true⟩⟩, none)))] : Registry)) =
      ⟨if ((fun (_ : NotifyCacheEmptyRequest) =>
              ((none : Option NotifyCacheEmptyResponse), some (GoError.errMsg "boom")))
                (⟨"ch"⟩ : NotifyCacheEmptyRequest)).2.isSome then none
        else ((fun (_ : NotifyCacheEmptyRequest) =>
              ((none : Option NotifyCacheEmptyResponse), some (GoError.errMsg "boom")))
                (⟨"ch"⟩ : NotifyCacheEmptyRequest)).1,
        ((fun (_ : NotifyCacheEmptyRequest) =>
              ((none : Option NotifyCacheEmptyResponse), some (GoError.errMsg "boom")))
                (⟨"ch"⟩ : NotifyCacheEmptyRequest)).2,
        ([("broken", none)] : Registry).map (fun e0 => LogEntry.errorNilProxy e0.1) ++
          (match ((fun (_ : NotifyCacheEmptyRequest) =>
              ((none : Option NotifyCacheEmptyResponse), some (GoError.errMsg "boom")))
                (⟨"ch"⟩ : NotifyCacheEmptyRequest)).2 with
            | some e => [LogEntry.errorProxyCall "good" "ch" e]
            | none => []),
        ["good"]⟩ :=
  ⟨by simp, c6_dispatch_first_usable ⟨"ch"⟩ [("broken", none)]
    [("later", some (fun _ => (some ⟨some ⟨true⟩⟩, none)))] "good"
    (fun _ => (none, some (GoError.errMsg "boom"))) (by simp)⟩

/-- Claim C7: for every registry traversal with no usable entry (including
the empty one), dispatch returns the default response with an empty/zero
result and a nil error, and makes no proxy call. -/
theorem c7_dispatch_no_backend (req : NotifyCacheEmptyRequest) (proxies : Registry)
    (hnil : ∀ e ∈ proxies, e.2 = none) :
    handleCacheEmpty req proxies =
      ⟨some ⟨some ⟨false⟩⟩, none,
        proxies.map (fun e0 => LogEntry.errorNilProxy e0.1), []⟩ :=
  handleCacheEmpty_allNil req proxies hnil

/-- Witness for C7: the empty registry yields the synthesized empty-result
success and zero proxy calls. -/
theorem c7_dispatch_no_backend_witness :
    (∀ e ∈ ([] : Registry), e.2 = none) ∧
    handleCacheEmpty ⟨"ch"⟩ ([] : Registry) =
      ⟨some ⟨some ⟨false⟩⟩, none,
        ([] : Registry).map (fun e0 => LogEntry.errorNilProxy e0.1), []⟩ :=
  ⟨by simp, c7_dispatch_no_backend ⟨"ch"⟩ [] (by simp)⟩

/-- Claim C10: on the no-backend path the response returned by dispatch has a
non-nil `Result` field, so reading `response.Result` after this path never
dereferences a nil pointer. -/
theorem c10_default_result_not_nil (req : NotifyCacheEmptyRequest) (proxies : Registry)
    (hnil : ∀ e ∈ proxies, e.2 = none) :
    ∃ r, (handleCacheEmpty req proxies).resp = some r ∧ r.result.isSome = true := by
  rw [handleCacheEmpty_allNil req proxies hnil]
  exact ⟨⟨some ⟨false⟩⟩, rfl, rfl⟩

/-- Witness for C10: a registry holding a single nil entry. -/
theorem c10_default_result_not_nil_witness :
    (∀ e ∈ ([("only", none)] : Registry), e.2 = none) ∧
    ∃ r, (handleCacheEmpty ⟨"ch"⟩ ([("only", none)] : Registry)).resp = some r ∧
      r.result.isSome = true :=
  ⟨by simp, c10_default_result_not_nil ⟨"ch"⟩ [("only", none)] (by simp)⟩

/-- Claim C8: when the configured `LockTimeout` is zero (unspecified), the
handler built by `NewCacheEmptyHandler` uses the default wait bound of five
seconds. -/
theorem c8_default_lock_timeout (config : CacheEmptyHandlerConfig)
    (hz : config.lockTimeout = 0) :
    (NewCacheEmptyHandler config).lockTimeout = 5 * timeSecond := by
  simp [NewCacheEmptyHandler, hz]

/-- Witness for C8 at a concrete zero-timeout configuration. -/
theorem c8_default_lock_timeout_witness :
    (CacheEmptyHandlerConfig.mk [] 0).lockTimeout = 0 ∧
    (NewCacheEmptyHandler (CacheEmptyHandlerConfig.mk [] 0)).lockTimeout = 5 * timeSecond :=
  ⟨rfl, c8_default_lock_timeout (CacheEmptyHandlerConfig.mk [] 0) rfl⟩

/-! ## Claim C9: registry iteration order

The source iterates `map[string]CacheEmptyProxy` with `range`, and Go map
iteration order is deliberately randomised: two executions of
`handleCacheEmpty` over the same registry may be presented the same entries
in two different orders (two permutations of each other).  The claim that
the entries are considered in a fixed order for every fixed registry is
refuted on a two-entry registry; what does hold is that for a registry with
at most one usable entry (the case the spec calls the practical one) the
visible outcome is the same for every traversal order. -/

/-- A proxy that always succeeds with the given result payload. -/
def proxyRespondingWith (r : NotifyCacheEmptyResult) : CacheEmptyProxy :=
  fun _ => (some ⟨some r⟩, none)

/-- A two-entry registry in one iteration order. -/
def regAB : Registry :=
  [("a", some (proxyRespondingWith ⟨true⟩)), ("b", some (proxyRespondingWith ⟨false⟩))]

/-- The same registry entries in the other iteration order. -/
def regBA : Registry :=
  [("b", some (proxyRespondingWith ⟨false⟩)), ("a", some (proxyRespondingWith ⟨true⟩))]

/-- Counterexample to claim C9 as stated: the same two-entry registry,
presented in the two iteration orders Go may choose, makes dispatch call a
different proxy and return a different response, so two executions of
`Dispatch` need not consider the entries (or select the first usable entry)
in the same order. -/
theorem c9_order_counterexample :
    regAB.Perm regBA ∧
    handleCacheEmpty ⟨"ch"⟩ regAB ≠ handleCacheEmpty ⟨"ch"⟩ regBA :=
  ⟨List.Perm.swap _ _ _, by
    intro h
    have hc : (handleCacheEmpty ⟨"ch"⟩ regAB).calls = (handleCacheEmpty ⟨"ch"⟩ regBA).calls := by
      rw [h]
    simp [handleCacheEmpty, regAB, regBA, proxyRespondingWith] at hc⟩

/-- Claim C9 (amended): the iteration order of the registry map is not fixed
across executions; however, for every registry holding at most one usable
(non-nil) entry, any two traversal orders give the same response, the same
error and the same proxy-call sequence. -/
theorem c9_order_independent_when_single (req : NotifyCacheEmptyRequest)
    (l1 l2 : Registry) (hperm : l1.Perm l2)
    (husable : l1.countP (fun e => e.2.isSome) ≤ 1) :
    ((handleCacheEmpty req l1).resp, (handleCacheEmpty req l1).err,
        (handleCacheEmpty req l1).calls) =
      ((handleCacheEmpty req l2).resp, (handleCacheEmpty req l2).err,
        (handleCacheEmpty req l2).calls) := by
  induction hperm with
  | nil => rfl
  | @cons x la lb h ih =>
    obtain ⟨nm, q⟩ := x
    cases q with
    | none =>
      have h1 : (List.countP (fun (e : String × Option CacheEmptyProxy) => e.2.isSome) la) ≤ 1 := by
        have := husable
        simpa [List.countP_cons] using this
      have := ih h1
      simp only [handleCacheEmpty] at *
      simpa using this
    | some p =>
      simp [handleCacheEmpty]
  | swap x y l =>
    obtain ⟨nmx, qx⟩ := x
    obtain ⟨nmy, qy⟩ := y
    cases qx with
    | none =>
      cases qy with
      | none => simp [handleCacheEmpty]
      | some py => simp [handleCacheEmpty]
    | some px =>
      cases qy with
      | none => simp [handleCacheEmpty]
      | some py =>
        exfalso
        simp [List.countP_cons] at husable
  | trans h1 h2 ih1 ih2 =>
    have hc2 :=
      (List.Perm.countP_eq (fun (e : String × Option CacheEmptyProxy) => e.2.isSome) h1) ▸ husable
    exact (ih1 husable).trans (ih2 hc2)

/-- Witness for the amended C9: a nil entry and one usable entry, in both
orders, give the same response, error and call sequence. -/
theorem c9_order_independent_when_single_witness :
    (([("z", none), ("a", some (proxyRespondingWith ⟨true⟩))] : Registry).Perm
        [("a", some (proxyRespondingWith ⟨true⟩)), ("z", none)] ∧
      ([("z", none), ("a", some (proxyRespondingWith ⟨true⟩))] : Registry).countP
          (fun e => e.2.isSome) ≤ 1) ∧
    ((handleCacheEmpty ⟨"ch"⟩ [("z", none), ("a", some (proxyRespondingWith ⟨true⟩))]).resp,
        (handleCacheEmpty ⟨"ch"⟩ [("z", none), ("a", some (proxyRespondingWith ⟨true⟩))]).err,
        (handleCacheEmpty ⟨"ch"⟩ [("z", none), ("a", some (proxyRespondingWith ⟨true⟩))]).calls) =
      ((handleCacheEmpty ⟨"ch"⟩ [("a", some (proxyRespondingWith ⟨true⟩)), ("z", none)]).resp,
        (handleCacheEmpty ⟨"ch"⟩ [("a", some (proxyRespondingWith ⟨true⟩)), ("z", none)]).err,
        (handleCacheEmpty ⟨"ch"⟩ [("a", some (proxyRespondingWith ⟨true⟩)), ("z", none)]).calls) :=
  ⟨⟨List.Perm.swap _ _ _, by simp [List.countP_cons]⟩,
    c9_order_independent_when_single ⟨"ch"⟩ _ _ (List.Perm.swap _ _ _)
      (by simp [List.countP_cons])⟩

/-! ## The single-flight coordinator as an interleaving machine -/

/-- `channelLock` from the source: the eventual result and error published by
the leader, and the completion channel (`done = true` once `close(lock.done)`
has run). -/
structure channelLock where
  result : Option NotifyCacheEmptyResponse
  err : Option GoError
  done : Bool
deriving DecidableEq, Repr

/-- What a `handle` caller learned from `getOrCreateLock`: nothing yet, that
it installed lock `l` (`isFirstCall = true`), or that it joined the existing
lock `l`. -/
inductive Role where
  | none
  | leader (l : Nat)
  | follower (l : Nat)
deriving DecidableEq, Repr

/-- Program counter of one `handle` caller, one value per suspension point of
the Go function body: about to call `getOrCreateLock`; leader about to run
`handleCacheEmpty` and store the result; leader about to run
`h.channelLocks.Delete(channel)`; leader about to run `close(lock.done)` and
return; follower blocked in the `select`; returned with a
`(response, error)` pair. -/
inductive ThreadPC where
  | start
  | leaderDispatch (l : Nat)
  | leaderCleanup1 (l : Nat) (ret : Option NotifyCacheEmptyResponse × Option GoError)
  | leaderCleanup2 (l : Nat) (ret : Option NotifyCacheEmptyResponse × Option GoError)
  | waitSelect (l : Nat)
  | finished (ret : Option NotifyCacheEmptyResponse × Option GoError)
deriving DecidableEq, Repr

/-- One `handle` caller: the channel it was invoked for, whether (and with
which error) its context is canceled, and its control state. -/
structure HandleThread where
  channel : String
  ctxErr : Option GoError
  role : Role
  pc : ThreadPC
deriving DecidableEq, Repr

/-- Global state of the coordinator and of all concurrent `handle` callers.
`channelMap` is `h.channelLocks` (channel name to lock identifier);
`locks` is the heap of `channelLock` objects (a deleted map entry does not
destroy the object — followers still hold a reference, as in Go);
`dispatchTrace` records each invocation of `handleCacheEmpty` (by channel)
and `callTrace` every proxy actually called; `logs` the emitted log lines. -/
structure Coordinator where
  registry : Registry
  lockTimeout : Int
  channelMap : String → Option Nat
  locks : Nat → Option channelLock
  nextLockId : Nat
  nThreads : Nat
  threads : Nat → HandleThread
  dispatchTrace : List String
  callTrace : List String
  logs : List LogEntry

/-- Scheduler choice for one step of one thread.  Deterministic statements
ignore the choice; a thread blocked in the `select` takes the branch the
choice names, when that branch is enabled: `selDone` needs the lock's done
channel closed, `selTimer` models the wait timer having fired (real time is
abstracted), `selCtx` needs the thread's context to be canceled. -/
inductive SelChoice where
  | go
  | selDone
  | selTimer
  | selCtx
deriving DecidableEq, Repr

/-- Replace thread `tid`. -/
def Coordinator.setThread (cfg : Coordinator) (tid : Nat) (t : HandleThread) : Coordinator :=
  { cfg with threads := fun i => if i = tid then t else cfg.threads i }

/-- `getOrCreateLock` from the source: a single atomic
`LoadOrStore(channel, newLock)` on the map.  Returns the lock identifier,
`isFirstCall` (true iff this call stored the fresh lock), and the updated
state. -/
def getOrCreateLock (cfg : Coordinator) (channel : String) : (Nat × Bool) × Coordinator :=
  match cfg.channelMap channel with
  | some l => ((l, false), cfg)
  | none =>
    ((cfg.nextLockId, true),
      { cfg with
        channelMap := fun c => if c = channel then some cfg.nextLockId else cfg.channelMap c
        locks := fun i => if i = cfg.nextLockId then some ⟨none, none, false⟩ else cfg.locks i
        nextLockId := cfg.nextLockId + 1 })

/-- One interleaving step: thread `tid` executes the statement at its program
counter (the `select` resolves according to `ch`).  Out-of-range thread ids,
and disabled `select` branches, leave the state unchanged. -/
def stepThread (cfg : Coordinator) (tid : Nat) (ch : SelChoice) : Coordinator :=
  if tid < cfg.nThreads then
    let t := cfg.threads tid
    match t.pc with
    | ThreadPC.start =>
      let res := getOrCreateLock cfg t.channel
      let l := res.1.1
      if res.1.2 then
        res.2.setThread tid { t with role := Role.leader l, pc := ThreadPC.leaderDispatch l }
      else
        res.2.setThread tid { t with role := Role.follower l, pc := ThreadPC.waitSelect l }
    | ThreadPC.leaderDispatch l =>
      let d := handleCacheEmpty ⟨t.channel⟩ cfg.registry
      { cfg with
        locks := fun i =>
          if i = l then (cfg.locks l).map (fun pc0 => { pc0 with result := d.resp, err := d.err })
          else cfg.locks i
        dispatchTrace := cfg.dispatchTrace ++ [t.channel]
        callTrace := cfg.callTrace ++ d.calls
        logs := cfg.logs ++ d.logs
        threads := fun i =>
          if i = tid then { t with pc := ThreadPC.leaderCleanup1 l (d.resp, d.err) }
          else cfg.threads i }
    | ThreadPC.leaderCleanup1 l r =>
      { cfg with
        channelMap := fun c => if c = t.channel then none else cfg.channelMap c
        threads := fun i =>
          if i = tid then { t with pc := ThreadPC.leaderCleanup2 l r } else cfg.threads i }
    | ThreadPC.leaderCleanup2 l r =>
      { cfg with
        locks := fun i =>
          if i = l then (cfg.locks l).map (fun pc0 => { pc0 with done := true })
          else cfg.locks i
        threads := fun i =>
          if i = tid then { t with pc := ThreadPC.finished r } else cfg.threads i }
    | ThreadPC.waitSelect l =>
      match ch with
      | SelChoice.selDone =>
        match cfg.locks l with
        | some pcall =>
          if pcall.done then
            cfg.setThread tid { t with pc := ThreadPC.finished (pcall.result, pcall.err) }
          else cfg
        | none => cfg
      | SelChoice.selTimer =>
        let d := handleCacheEmpty ⟨t.channel⟩ cfg.registry
        { cfg with
          logs := cfg.logs ++ [LogEntry.warnLockTimeout t.channel cfg.lockTimeout] ++ d.logs
          dispatchTrace := cfg.dispatchTrace ++ [t.channel]
          callTrace := cfg.callTrace ++ d.calls
          threads := fun i =>
            if i = tid then { t with pc := ThreadPC.finished (d.resp, d.err) }
            else cfg.threads i }
      | SelChoice.selCtx =>
        match t.ctxErr with
        | some e => cfg.setThread tid { t with pc := ThreadPC.finished (none, some e) }
        | none => cfg
      | SelChoice.go => cfg
    | ThreadPC.finished _ => cfg
  else cfg

/-- Run a whole schedule (a list of `(thread id, select choice)` items). -/
def runSched (cfg : Coordinator) : List (Nat × SelChoice) → Coordinator
  | [] => cfg
  | it :: s => runSched (stepThread cfg it.1 it.2) s

/-- All intermediate states of a schedule, the initial and final ones
included. -/
def runPrefixes (cfg : Coordinator) : List (Nat × SelChoice) → List Coordinator
  | [] => [cfg]
  | it :: s => cfg :: runPrefixes (stepThread cfg it.1 it.2) s

/-- A fresh `handle` caller for the given channel, with the given context
cancellation status. -/
def mkThread (c : String) (ce : Option GoError) : HandleThread :=
  ⟨c, ce, Role.none, ThreadPC.start⟩

/-- Initial state: the handler built by `NewCacheEmptyHandler` plus one
fresh caller per element of `chans` (channel id and context status). -/
def initCoordinator (h : CacheEmptyHandler) (chans : List (String × Option GoError)) :
    Coordinator :=
  { registry := h.proxies
    lockTimeout := h.lockTimeout
    channelMap := fun _ => none
    locks := fun _ => none
    nextLockId := 0
    nThreads := chans.length
    threads := fun i => mkThread (chans.getD i ("", none)).1 (chans.getD i ("", none)).2
    dispatchTrace := []
    callTrace := []
    logs := [] }

/-- Whether a thread has returned from `handle`. -/
def ThreadPC.isFinished : ThreadPC → Bool
  | ThreadPC.finished _ => true
  | _ => false

/-- Whether a thread has already executed the leader's
`h.channelLocks.Delete(channel)` (it is at `close(lock.done)` or, as a
leader, has returned). -/
def HandleThread.pastCleanup (t : HandleThread) : Bool :=
  match t.pc, t.role with
  | ThreadPC.leaderCleanup2 _ _, _ => true
  | ThreadPC.finished _, Role.leader _ => true
  | _, _ => false

/-- True when some thread has already executed the leader's map delete. -/
def anyPastCleanup (cfg : Coordinator) : Bool :=
  (List.range cfg.nThreads).any (fun i => (cfg.threads i).pastCleanup)

/-- The untimed rendering of "every call arrives within less than the
lock-wait timeout while the first call is still in flight": once some leader
has reached its cleanup, no caller is still before its `getOrCreateLock`. -/
def arrivedInTime (cfg : Coordinator) : Prop :=
  anyPastCleanup cfg = true → ∀ i, i < cfg.nThreads → (cfg.threads i).pc ≠ ThreadPC.start

/-! ## Claims C4 and C5: the follower's select branches -/

/-- Claim C4: a follower whose wait timer fires while the leader has not yet
completed (its lock's done channel still open) and whose own context is not
canceled does not surface the timeout as an error: it logs a warning carrying
the channel and the configured timeout, invokes `handleCacheEmpty`
independently with a fresh request for the same channel, returns that
independent call's own `(response, error)`, and leaves the channel map, the
heap of locks, and every other thread untouched. -/
theorem c4_timeout_fallback (cfg : Coordinator) (tid l : Nat) (pcall : channelLock)
    (htid : tid < cfg.nThreads)
    (hpc : (cfg.threads tid).pc = ThreadPC.waitSelect l)
    (hlock : cfg.locks l = some pcall) (hdone : pcall.done = false)
    (hctx : (cfg.threads tid).ctxErr = none) :
    (stepThread cfg tid SelChoice.selTimer).logs =
        cfg.logs ++ [LogEntry.warnLockTimeout (cfg.threads tid).channel cfg.lockTimeout] ++
          (handleCacheEmpty ⟨(cfg.threads tid).channel⟩ cfg.registry).logs ∧
    (stepThread cfg tid SelChoice.selTimer).dispatchTrace =
        cfg.dispatchTrace ++ [(cfg.threads tid).channel] ∧
    (stepThread cfg tid SelChoice.selTimer).callTrace =
        cfg.callTrace ++ (handleCacheEmpty ⟨(cfg.threads tid).channel⟩ cfg.registry).calls ∧
    ((stepThread cfg tid SelChoice.selTimer).threads tid).pc =
        ThreadPC.finished ((handleCacheEmpty ⟨(cfg.threads tid).channel⟩ cfg.registry).resp,
          (handleCacheEmpty ⟨(cfg.threads tid).channel⟩ cfg.registry).err) ∧
    (stepThread cfg tid SelChoice.selTimer).channelMap = cfg.channelMap ∧
    (stepThread cfg tid SelChoice.selTimer).locks = cfg.locks ∧
    (∀ j, j ≠ tid → (stepThread cfg tid SelChoice.selTimer).threads j = cfg.threads j) := by
  have hstep : stepThread cfg tid SelChoice.selTimer =
      { cfg with
        logs := cfg.logs ++ [LogEntry.warnLockTimeout (cfg.threads tid).channel cfg.lockTimeout] ++
          (handleCacheEmpty ⟨(cfg.threads tid).channel⟩ cfg.registry).logs
        dispatchTrace := cfg.dispatchTrace ++ [(cfg.threads tid).channel]
        callTrace := cfg.callTrace ++ (handleCacheEmpty ⟨(cfg.threads tid).channel⟩ cfg.registry).calls
        threads := fun i =>
          if i = tid then
            { cfg.threads tid with
              pc := ThreadPC.finished ((handleCacheEmpty ⟨(cfg.threads tid).channel⟩ cfg.registry).resp,
                (handleCacheEmpty ⟨(cfg.threads tid).channel⟩ cfg.registry).err) }
          else cfg.threads i } := by
    simp only [stepThread, htid, if_true, hpc]
  rw [hstep]
  refine ⟨rfl, rfl, rfl, ?_, rfl, rfl, ?_⟩
  · simp
  · intro j hj
    simp [hj]

/-- Claim C5: a follower whose own context is canceled (while the leader's
completion signal is still closed and before the timer branch is taken)
returns immediately with a nil response and the context's cancellation
error, makes no independent dispatch call, emits no log, and leaves the
channel map, the locks and every other thread untouched. -/
theorem c5_ctx_cancellation (cfg : Coordinator) (tid l : Nat) (e : GoError)
    (pcall : channelLock)
    (htid : tid < cfg.nThreads)
    (hpc : (cfg.threads tid).pc = ThreadPC.waitSelect l)
    (hctx : (cfg.threads tid).ctxErr = some e)
    (hlock : cfg.locks l = some pcall) (hdone : pcall.done = false) :
    ((stepThread cfg tid SelChoice.selCtx).threads tid).pc =
        ThreadPC.finished (none, some e) ∧
    (stepThread cfg tid SelChoice.selCtx).dispatchTrace = cfg.dispatchTrace ∧
    (stepThread cfg tid SelChoice.selCtx).callTrace = cfg.callTrace ∧
    (stepThread cfg tid SelChoice.selCtx).logs = cfg.logs ∧
    (stepThread cfg tid SelChoice.selCtx).channelMap = cfg.channelMap ∧
    (stepThread cfg tid SelChoice.selCtx).locks = cfg.locks ∧
    (∀ j, j ≠ tid → (stepThread cfg tid SelChoice.selCtx).threads j = cfg.threads j) := by
  have hstep : stepThread cfg tid SelChoice.selCtx =
      cfg.setThread tid { cfg.threads tid with pc := ThreadPC.finished (none, some e) } := by
    simp only [stepThread, htid, if_true, hpc, hctx]
  rw [hstep]
  refine ⟨?_, rfl, rfl, rfl, rfl, rfl, ?_⟩
  · simp [Coordinator.setThread]
  · intro j hj
    simp [Coordinator.setThread, hj]

/-! Concrete fixtures used by the coordinator witnesses: one proxy named
"test" that answers with a populated result, a handler with a defaulted lock
timeout, and two callers for the channel "ch". -/

/-- A proxy answering every request with a populated result. -/
def pOkTest : CacheEmptyProxy := fun _ => (some ⟨some ⟨true⟩⟩, none)

/-- Registry with the single proxy `"test"`. -/
def regTest : Registry := [("test", some pOkTest)]

/-- Handler built by the constructor with unset lock timeout. -/
def handlerTest : CacheEmptyHandler := NewCacheEmptyHandler ⟨regTest, 0⟩

/-- State after the leader (thread 0) installed the lock and the follower
(thread 1) joined it: leader about to dispatch, follower in the select. -/
def cfgWaiting : Coordinator :=
  runSched (initCoordinator handlerTest [("ch", none), ("ch", none)])
    [(0, SelChoice.go), (1, SelChoice.go)]

/-- Same state but the follower's context is canceled. -/
def cfgWaitingCanceled : Coordinator :=
  runSched (initCoordinator handlerTest [("ch", none), ("ch", some GoError.canceled)])
    [(0, SelChoice.go), (1, SelChoice.go)]

/-- Witness for C4 at the concrete waiting state. -/
theorem c4_timeout_fallback_witness :
    (1 < cfgWaiting.nThreads ∧ (cfgWaiting.threads 1).pc = ThreadPC.waitSelect 0 ∧
      cfgWaiting.locks 0 = some ⟨none, none, false⟩ ∧
      (⟨none, none, false⟩ : channelLock).done = false ∧
      (cfgWaiting.threads 1).ctxErr = none) ∧
    ((stepThread cfgWaiting 1 SelChoice.selTimer).logs =
        cfgWaiting.logs ++ [LogEntry.warnLockTimeout (cfgWaiting.threads 1).channel cfgWaiting.lockTimeout] ++
          (handleCacheEmpty ⟨(cfgWaiting.threads 1).channel⟩ cfgWaiting.registry).logs ∧
      (stepThread cfgWaiting 1 SelChoice.selTimer).dispatchTrace =
        cfgWaiting.dispatchTrace ++ [(cfgWaiting.threads 1).channel] ∧
      (stepThread cfgWaiting 1 SelChoice.selTimer).callTrace =
        cfgWaiting.callTrace ++ (handleCacheEmpty ⟨(cfgWaiting.threads 1).channel⟩ cfgWaiting.registry).calls ∧
      ((stepThread cfgWaiting 1 SelChoice.selTimer).threads 1).pc =
        ThreadPC.finished ((handleCacheEmpty ⟨(cfgWaiting.threads 1).channel⟩ cfgWaiting.registry).resp,
          (handleCacheEmpty ⟨(cfgWaiting.threads 1).channel⟩ cfgWaiting.registry).err) ∧
      (stepThread cfgWaiting 1 SelChoice.selTimer).channelMap = cfgWaiting.channelMap ∧
      (stepThread cfgWaiting 1 SelChoice.selTimer).locks = cfgWaiting.locks ∧
      (∀ j, j ≠ 1 → (stepThread cfgWaiting 1 SelChoice.selTimer).threads j = cfgWaiting.threads j)) :=
  ⟨⟨by decide, by decide, by decide, rfl, by decide⟩,
    c4_timeout_fallback cfgWaiting 1 0 ⟨none, none, false⟩ (by decide) (by decide)
      (by decide) rfl (by decide)⟩

/-- Witness for C5 at the concrete waiting state with a canceled context. -/
theorem c5_ctx_cancellation_witness :
    (1 < cfgWaitingCanceled.nThreads ∧
      (cfgWaitingCanceled.threads 1).pc = ThreadPC.waitSelect 0 ∧
      (cfgWaitingCanceled.threads 1).ctxErr = some GoError.canceled ∧
      cfgWaitingCanceled.locks 0 = some ⟨none, none, false⟩ ∧
      (⟨none, none, false⟩ : channelLock).done = false) ∧
    (((stepThread cfgWaitingCanceled 1 SelChoice.selCtx).threads 1).pc =
        ThreadPC.finished (none, some GoError.canceled) ∧
      (stepThread cfgWaitingCanceled 1 SelChoice.selCtx).dispatchTrace =
        cfgWaitingCanceled.dispatchTrace ∧
      (stepThread cfgWaitingCanceled 1 SelChoice.selCtx).callTrace =
        cfgWaitingCanceled.callTrace ∧
      (stepThread cfgWaitingCanceled 1 SelChoice.selCtx).logs = cfgWaitingCanceled.logs ∧
      (stepThread cfgWaitingCanceled 1 SelChoice.selCtx).channelMap =
        cfgWaitingCanceled.channelMap ∧
      (stepThread cfgWaitingCanceled 1 SelChoice.selCtx).locks = cfgWaitingCanceled.locks ∧
      (∀ j, j ≠ 1 →
        (stepThread cfgWaitingCanceled 1 SelChoice.selCtx).threads j =
          cfgWaitingCanceled.threads j)) :=
  ⟨⟨by decide, by decide, by decide, by decide, rfl⟩,
    c5_ctx_cancellation cfgWaitingCanceled 1 0 GoError.canceled ⟨none, none, false⟩
      (by decide) (by decide) (by decide) (by decide) rfl⟩

/-! ## Step equations, one per statement of `handle` -/

theorem stepThread_oob (cfg : Coordinator) (tid : Nat) (ch : SelChoice)
    (h : ¬ tid < cfg.nThreads) : stepThread cfg tid ch = cfg := by
  simp only [stepThread, h, if_false]

theorem stepThread_start_join (cfg : Coordinator) (tid : Nat) (ch : SelChoice) (l : Nat)
    (htid : tid < cfg.nThreads)
    (hpc : (cfg.threads tid).pc = ThreadPC.start)
    (hmap : cfg.channelMap (cfg.threads tid).channel = some l) :
    stepThread cfg tid ch =
      cfg.setThread tid
        { cfg.threads tid with role := Role.follower l, pc := ThreadPC.waitSelect l } := by
  simp only [stepThread, htid, if_true, hpc, getOrCreateLock, hmap, Bool.false_eq_true,
    if_false]

theorem stepThread_start_install (cfg : Coordinator) (tid : Nat) (ch : SelChoice)
    (htid : tid < cfg.nThreads)
    (hpc : (cfg.threads tid).pc = ThreadPC.start)
    (hmap : cfg.channelMap (cfg.threads tid).channel = none) :
    stepThread cfg tid ch =
      { cfg with
        channelMap := fun c =>
          if c = (cfg.threads tid).channel then some cfg.nextLockId else cfg.channelMap c
        locks := fun i =>
          if i = cfg.nextLockId then some ⟨none, none, false⟩ else cfg.locks i
        nextLockId := cfg.nextLockId + 1
        threads := fun i =>
          if i = tid then
            { cfg.threads tid with
              role := Role.leader cfg.nextLockId, pc := ThreadPC.leaderDispatch cfg.nextLockId }
          else cfg.threads i } := by
  simp only [stepThread, htid, if_true, hpc, getOrCreateLock, hmap, Coordinator.setThread]

theorem stepThread_leaderDispatch (cfg : Coordinator) (tid : Nat) (ch : SelChoice) (l : Nat)
    (htid : tid < cfg.nThreads)
    (hpc : (cfg.threads tid).pc = ThreadPC.leaderDispatch l) :
    stepThread cfg tid ch =
      { cfg with
        locks := fun i =>
          if i = l then
            (cfg.locks l).map
              (fun pc0 =>
                { pc0 with
                  result := (handleCacheEmpty ⟨(cfg.threads tid).channel⟩ cfg.registry).resp
                  err := (handleCacheEmpty ⟨(cfg.threads tid).channel⟩ cfg.registry).err })
          else cfg.locks i
        dispatchTrace := cfg.dispatchTrace ++ [(cfg.threads tid).channel]
        callTrace :=
          cfg.callTrace ++ (handleCacheEmpty ⟨(cfg.threads tid).channel⟩ cfg.registry).calls
        logs := cfg.logs ++ (handleCacheEmpty ⟨(cfg.threads tid).channel⟩ cfg.registry).logs
        threads := fun i =>
          if i = tid then
            { cfg.threads tid with
              pc := ThreadPC.leaderCleanup1 l
                ((handleCacheEmpty ⟨(cfg.threads tid).channel⟩ cfg.registry).resp,
                  (handleCacheEmpty ⟨(cfg.threads tid).channel⟩ cfg.registry).err) }
          else cfg.threads i } := by
  simp only [stepThread, htid, if_true, hpc]

theorem stepThread_cleanup1 (cfg : Coordinator) (tid : Nat) (ch : SelChoice) (l : Nat)
    (r : Option NotifyCacheEmptyResponse × Option GoError)
    (htid : tid < cfg.nThreads)
    (hpc : (cfg.threads tid).pc = ThreadPC.leaderCleanup1 l r) :
    stepThread cfg tid ch =
      { cfg with
        channelMap := fun c =>
          if c = (cfg.threads tid).channel then none else cfg.channelMap c
        threads := fun i =>
          if i = tid then { cfg.threads tid with pc := ThreadPC.leaderCleanup2 l r }
          else cfg.threads i } := by
  simp only [stepThread, htid, if_true, hpc]

theorem stepThread_cleanup2 (cfg : Coordinator) (tid : Nat) (ch : SelChoice) (l : Nat)
    (r : Option NotifyCacheEmptyResponse × Option GoError)
    (htid : tid < cfg.nThreads)
    (hpc : (cfg.threads tid).pc = ThreadPC.leaderCleanup2 l r) :
    stepThread cfg tid ch =
      { cfg with
        locks := fun i =>
          if i = l then (cfg.locks l).map (fun pc0 => { pc0 with done := true })
          else cfg.locks i
        threads := fun i =>
          if i = tid then { cfg.threads tid with pc := ThreadPC.finished r }
          else cfg.threads i } := by
  simp only [stepThread, htid, if_true, hpc]

theorem stepThread_wait_go (cfg : Coordinator) (tid : Nat) (l : Nat)
    (htid : tid < cfg.nThreads)
    (hpc : (cfg.threads tid).pc = ThreadPC.waitSelect l) :
    stepThread cfg tid SelChoice.go = cfg := by
  simp only [stepThread, htid, if_true, hpc]

theorem stepThread_wait_done_nolock (cfg : Coordinator) (tid : Nat) (l : Nat)
    (htid : tid < cfg.nThreads)
    (hpc : (cfg.threads tid).pc = ThreadPC.waitSelect l)
    (hlock : cfg.locks l = none) :
    stepThread cfg tid SelChoice.selDone = cfg := by
  simp only [stepThread, htid, if_true, hpc, hlock]

theorem stepThread_wait_done_open (cfg : Coordinator) (tid : Nat) (l : Nat)
    (pcall : channelLock)
    (htid : tid < cfg.nThreads)
    (hpc : (cfg.threads tid).pc = ThreadPC.waitSelect l)
    (hlock : cfg.locks l = some pcall) (hdone : pcall.done = false) :
    stepThread cfg tid SelChoice.selDone = cfg := by
  simp only [stepThread, htid, if_true, hpc, hlock, hdone, Bool.false_eq_true, if_false]

theorem stepThread_wait_done_closed (cfg : Coordinator) (tid : Nat) (l : Nat)
    (pcall : channelLock)
    (htid : tid < cfg.nThreads)
    (hpc : (cfg.threads tid).pc = ThreadPC.waitSelect l)
    (hlock : cfg.locks l = some pcall) (hdone : pcall.done = true) :
    stepThread cfg tid SelChoice.selDone =
      cfg.setThread tid
        { cfg.threads tid with pc := ThreadPC.finished (pcall.result, pcall.err) } := by
  simp only [stepThread, htid, if_true, hpc, hlock, hdone]

theorem stepThread_wait_timer (cfg : Coordinator) (tid : Nat) (l : Nat)
    (htid : tid < cfg.nThreads)
    (hpc : (cfg.threads tid).pc = ThreadPC.waitSelect l) :
    stepThread cfg tid SelChoice.selTimer =
      { cfg with
        logs := cfg.logs ++ [LogEntry.warnLockTimeout (cfg.threads tid).channel cfg.lockTimeout] ++
          (handleCacheEmpty ⟨(cfg.threads tid).channel⟩ cfg.registry).logs
        dispatchTrace := cfg.dispatchTrace ++ [(cfg.threads tid).channel]
        callTrace :=
          cfg.callTrace ++ (handleCacheEmpty ⟨(cfg.threads tid).channel⟩ cfg.registry).calls
        threads := fun i =>
          if i = tid then
            { cfg.threads tid with
              pc := ThreadPC.finished
                ((handleCacheEmpty ⟨(cfg.threads tid).channel⟩ cfg.registry).resp,
                  (handleCacheEmpty ⟨(cfg.threads tid).channel⟩ cfg.registry).err) }
          else cfg.threads i } := by
  simp only [stepThread, htid, if_true, hpc]

theorem stepThread_wait_ctx_some (cfg : Coordinator) (tid : Nat) (l : Nat) (e : GoError)
    (htid : tid < cfg.nThreads)
    (hpc : (cfg.threads tid).pc = ThreadPC.waitSelect l)
    (hctx : (cfg.threads tid).ctxErr = some e) :
    stepThread cfg tid SelChoice.selCtx =
      cfg.setThread tid { cfg.threads tid with pc := ThreadPC.finished (none, some e) } := by
  simp only [stepThread, htid, if_true, hpc, hctx]

theorem stepThread_wait_ctx_none (cfg : Coordinator) (tid : Nat) (l : Nat)
    (htid : tid < cfg.nThreads)
    (hpc : (cfg.threads tid).pc = ThreadPC.waitSelect l)
    (hctx : (cfg.threads tid).ctxErr = none) :
    stepThread cfg tid SelChoice.selCtx = cfg := by
  simp only [stepThread, htid, if_true, hpc, hctx]

theorem stepThread_finished (cfg : Coordinator) (tid : Nat) (ch : SelChoice)
    (r : Option NotifyCacheEmptyResponse × Option GoError)
    (htid : tid < cfg.nThreads)
    (hpc : (cfg.threads tid).pc = ThreadPC.finished r) :
    stepThread cfg tid ch = cfg := by
  simp only [stepThread, htid, if_true, hpc]

/-! ## The general coordinator invariant (any schedule, any channels) -/

/-- Coherence of a thread's control state with what it learned from
`getOrCreateLock`: before the call it has no role; a leader executes the
leader statements of its own lock; a follower waits on its own lock. -/
def HandleThread.pcRoleOK (t : HandleThread) : Prop :=
  match t.pc with
  | ThreadPC.start => t.role = Role.none
  | ThreadPC.leaderDispatch l => t.role = Role.leader l
  | ThreadPC.leaderCleanup1 l _ => t.role = Role.leader l
  | ThreadPC.leaderCleanup2 l _ => t.role = Role.leader l
  | ThreadPC.waitSelect l => t.role = Role.follower l
  | ThreadPC.finished _ => True

/-- State of lock `l` and of the map entry for the leader's channel at each
point of the leader's path: the lock fields are still zero while the leader
is about to dispatch; the `(response, error)` pair carried by the program
counter is already stored in the lock from the store point on; the map entry
for the channel is present until the delete statement and no longer refers
to `l` afterwards; the done channel is closed exactly at the end. -/
def leaderShapeIn (mp : String → Option Nat) (lk : Nat → Option channelLock)
    (t : HandleThread) (l : Nat) : Prop :=
  match t.pc with
  | ThreadPC.start => False
  | ThreadPC.waitSelect _ => False
  | ThreadPC.leaderDispatch l' =>
    l' = l ∧ mp t.channel = some l ∧ lk l = some ⟨none, none, false⟩
  | ThreadPC.leaderCleanup1 l' r =>
    l' = l ∧ mp t.channel = some l ∧ lk l = some ⟨r.1, r.2, false⟩
  | ThreadPC.leaderCleanup2 l' r =>
    l' = l ∧ mp t.channel ≠ some l ∧ lk l = some ⟨r.1, r.2, false⟩
  | ThreadPC.finished r =>
    mp t.channel ≠ some l ∧ lk l = some ⟨r.1, r.2, true⟩

/-- Invariant of every reachable coordinator state: lock identifiers in use
are below the allocator; control states cohere with roles; every leader's
lock and map entry are in the shape dictated by the leader's program
counter; no lock has two leaders; every present map entry was installed by a
(unique) leader for that channel; every follower joined a lock some leader
installed for the same channel. -/
structure JInv (cfg : Coordinator) : Prop where
  roleBound : ∀ i l, i < cfg.nThreads →
    ((cfg.threads i).role = Role.leader l ∨ (cfg.threads i).role = Role.follower l) →
    l < cfg.nextLockId
  pcRole : ∀ i, i < cfg.nThreads → (cfg.threads i).pcRoleOK
  leaderShape : ∀ i l, i < cfg.nThreads → (cfg.threads i).role = Role.leader l →
    leaderShapeIn cfg.channelMap cfg.locks (cfg.threads i) l
  leaderUnique : ∀ i j l, i < cfg.nThreads → j < cfg.nThreads →
    (cfg.threads i).role = Role.leader l → (cfg.threads j).role = Role.leader l → i = j
  mapLeader : ∀ c l, cfg.channelMap c = some l →
    ∃ i, i < cfg.nThreads ∧ (cfg.threads i).role = Role.leader l ∧
      (cfg.threads i).channel = c
  followerLeader : ∀ i l, i < cfg.nThreads → (cfg.threads i).role = Role.follower l →
    ∃ j, j < cfg.nThreads ∧ (cfg.threads j).role = Role.leader l ∧
      (cfg.threads j).channel = (cfg.threads i).channel

theorem pcRoleOK_congr (t t' : HandleThread) (hpc : t'.pc = t.pc) (hrole : t'.role = t.role)
    (h : t.pcRoleOK) : t'.pcRoleOK := by
  unfold HandleThread.pcRoleOK at *
  rw [hpc, hrole]
  exact h

theorem leaderShapeIn_congr (mp : String → Option Nat) (lk : Nat → Option channelLock)
    (t t' : HandleThread) (l : Nat) (hpc : t'.pc = t.pc) (hch : t'.channel = t.channel)
    (h : leaderShapeIn mp lk t l) : leaderShapeIn mp lk t' l := by
  unfold leaderShapeIn at *
  rw [hpc, hch]
  exact h

/-- A step that leaves the map, the locks, the allocator and the thread
count unchanged, keeps every thread's role and channel, and either keeps a
thread's program counter or moves a follower from its select into
`finished`, preserves the invariant. -/
theorem JInv_of_eqs (cfg cfg' : Coordinator)
    (hn : cfg'.nThreads = cfg.nThreads)
    (hm : cfg'.channelMap = cfg.channelMap)
    (hl : cfg'.locks = cfg.locks)
    (hnext : cfg'.nextLockId = cfg.nextLockId)
    (hth : ∀ i, i < cfg.nThreads →
      (cfg'.threads i).role = (cfg.threads i).role ∧
      (cfg'.threads i).channel = (cfg.threads i).channel ∧
      ((cfg'.threads i).pc = (cfg.threads i).pc ∨
        ((∃ r, (cfg'.threads i).pc = ThreadPC.finished r) ∧
          ∃ l0, (cfg.threads i).pc = ThreadPC.waitSelect l0)))
    (hJ : JInv cfg) : JInv cfg' := by
  refine ⟨?_, ?_, ?_, ?_, ?_, ?_⟩
  · intro i l hi hrl
    rw [hn] at hi
    rw [hnext]
    exact hJ.roleBound i l hi (by rwa [(hth i hi).1] at hrl)
  · intro i hi
    rw [hn] at hi
    obtain ⟨hrole, hch, hpc | ⟨⟨r, hfin⟩, l0, hw⟩⟩ := hth i hi
    · exact pcRoleOK_congr _ _ hpc hrole (hJ.pcRole i hi)
    · unfold HandleThread.pcRoleOK
      rw [hfin]
      trivial
  · intro i l hi hrl
    rw [hn] at hi
    rw [hm, hl]
    obtain ⟨hrole, hch, hpc | ⟨⟨r, hfin⟩, l0, hw⟩⟩ := hth i hi
    · exact leaderShapeIn_congr _ _ _ _ _ hpc hch
        (hJ.leaderShape i l hi (by rwa [hrole] at hrl))
    · exfalso
      have := hJ.pcRole i hi
      unfold HandleThread.pcRoleOK at this
      rw [hw] at this
      rw [hrole, this] at hrl
      exact Role.noConfusion hrl
  · intro i j l hi hj hri hrj
    rw [hn] at hi hj
    exact hJ.leaderUnique i j l hi hj (by rwa [(hth i hi).1] at hri)
      (by rwa [(hth j hj).1] at hrj)
  · intro c l hc
    rw [hm] at hc
    obtain ⟨i, hi, hrole, hch⟩ := hJ.mapLeader c l hc
    exact ⟨i, by rwa [hn], by rwa [(hth i hi).1], by rwa [(hth i hi).2.1]⟩
  · intro i l hi hrl
    rw [hn] at hi
    obtain ⟨j, hj, hrole, hch⟩ :=
      hJ.followerLeader i l hi (by rwa [(hth i hi).1] at hrl)
    exact ⟨j, by rwa [hn], by rwa [(hth j hj).1],
      by rw [(hth j hj).2.1, (hth i hi).2.1]; exact hch⟩

/-- Transfer a leader shape across state components that agree at the
leader's own channel and lock. -/
theorem leaderShapeIn_ext (mp mp' : String → Option Nat) (lk lk' : Nat → Option channelLock)
    (t : HandleThread) (l : Nat)
    (hmp : mp' t.channel = mp t.channel) (hlk : lk' l = lk l)
    (h : leaderShapeIn mp lk t l) : leaderShapeIn mp' lk' t l := by
  unfold leaderShapeIn at *
  rcases hpc : t.pc with _ | l' | ⟨l', r'⟩ | ⟨l', r'⟩ | l' | r'
  all_goals rw [hpc] at h
  · exact h
  · exact ⟨h.1, by rw [hmp]; exact h.2.1, by rw [hlk]; exact h.2.2⟩
  · exact ⟨h.1, by rw [hmp]; exact h.2.1, by rw [hlk]; exact h.2.2⟩
  · exact ⟨h.1, by rw [hmp]; exact h.2.1, by rw [hlk]; exact h.2.2⟩
  · exact h
  · exact ⟨by rw [hmp]; exact h.1, by rw [hlk]; exact h.2⟩

/-- The invariant is preserved by every interleaving step. -/
theorem JInv_step (cfg : Coordinator) (hJ : JInv cfg) (tid : Nat) (ch : SelChoice) :
    JInv (stepThread cfg tid ch) := by
  obtain ⟨rb, pr, ls, lu, ml, fl⟩ := hJ
  by_cases htid : tid < cfg.nThreads
  case neg => rw [stepThread_oob cfg tid ch htid]; exact ⟨rb, pr, ls, lu, ml, fl⟩
  case pos =>
  rcases hpct : (cfg.threads tid).pc with _ | l | ⟨l, r⟩ | ⟨l, r⟩ | l | r
  case start =>
    have hrt : (cfg.threads tid).role = Role.none := by
      have := pr tid htid
      unfold HandleThread.pcRoleOK at this
      rwa [hpct] at this
    rcases hmap : cfg.channelMap (cfg.threads tid).channel with _ | l
    case none =>
      -- install: the caller becomes the leader of the fresh lock
      rw [stepThread_start_install cfg tid ch htid hpct hmap]
      refine ⟨?_, ?_, ?_, ?_, ?_, ?_⟩
      · intro i l0 hi hrl
        dsimp only at hi hrl ⊢
        by_cases hit : i = tid
        · subst hit
          rw [if_pos rfl] at hrl
          rcases hrl with hrl | hrl
          · cases hrl; omega
          · cases hrl
        · rw [if_neg hit] at hrl
          have := rb i l0 hi hrl
          omega
      · intro i hi
        dsimp only at hi ⊢
        by_cases hit : i = tid
        · subst hit
          rw [if_pos rfl]
          unfold HandleThread.pcRoleOK
          exact rfl
        · rw [if_neg hit]
          exact pr i hi
      · intro i l0 hi hrl
        dsimp only at hi hrl ⊢
        by_cases hit : i = tid
        · subst hit
          rw [if_pos rfl] at hrl ⊢
          cases hrl
          unfold leaderShapeIn
          refine ⟨rfl, ?_, ?_⟩
          · dsimp only
            rw [if_pos rfl]
          · dsimp only
            rw [if_pos rfl]
        · rw [if_neg hit] at hrl ⊢
          have hl0 : l0 < cfg.nextLockId := rb i l0 hi (Or.inl hrl)
          have shape := ls i l0 hi hrl
          unfold leaderShapeIn at shape ⊢
          dsimp only
          rcases hpci : (cfg.threads i).pc with _ | l' | ⟨l', r'⟩ | ⟨l', r'⟩ | l' | r'
          all_goals rw [hpci] at shape
          · exact shape
          · refine ⟨shape.1, ?_, ?_⟩
            · by_cases hch : (cfg.threads i).channel = (cfg.threads tid).channel
              · rw [hch] at shape; rw [hmap] at shape
                exact absurd shape.2.1 (by simp)
              · rw [if_neg hch]; exact shape.2.1
            · rw [if_neg (by omega)]; exact shape.2.2
          · refine ⟨shape.1, ?_, ?_⟩
            · by_cases hch : (cfg.threads i).channel = (cfg.threads tid).channel
              · rw [hch] at shape; rw [hmap] at shape
                exact absurd shape.2.1 (by simp)
              · rw [if_neg hch]; exact shape.2.1
            · rw [if_neg (by omega)]; exact shape.2.2
          · refine ⟨shape.1, ?_, ?_⟩
            · by_cases hch : (cfg.threads i).channel = (cfg.threads tid).channel
              · rw [hch]; rw [if_pos rfl]
                intro hcon
                have : cfg.nextLockId = l0 := by injection hcon
                omega
              · rw [if_neg hch]; exact shape.2.1
            · rw [if_neg (by omega)]; exact shape.2.2
          · exact shape
          · refine ⟨?_, ?_⟩
            · by_cases hch : (cfg.threads i).channel = (cfg.threads tid).channel
              · rw [hch]; rw [if_pos rfl]
                intro hcon
                have : cfg.nextLockId = l0 := by injection hcon
                omega
              · rw [if_neg hch]; exact shape.1
            · rw [if_neg (by omega)]; exact shape.2
      · intro i j l0 hi hj hri hrj
        dsimp only at hi hj hri hrj
        by_cases hit : i = tid <;> by_cases hjt : j = tid
        · rw [hit, hjt]
        · subst hit
          rw [if_pos rfl] at hri
          rw [if_neg hjt] at hrj
          cases hri
          have := rb j cfg.nextLockId hj (Or.inl hrj)
          omega
        · subst hjt
          rw [if_pos rfl] at hrj
          rw [if_neg hit] at hri
          cases hrj
          have := rb i cfg.nextLockId hi (Or.inl hri)
          omega
        · rw [if_neg hit] at hri
          rw [if_neg hjt] at hrj
          exact lu i j l0 hi hj hri hrj
      · intro c l0 hc
        dsimp only at hc ⊢
        by_cases hcT : c = (cfg.threads tid).channel
        · rw [if_pos hcT] at hc
          have hl0 : l0 = cfg.nextLockId := by injection hc with h0; omega
          subst hl0
          exact ⟨tid, htid, by rw [if_pos rfl], by rw [if_pos rfl]; exact hcT.symm⟩
        · rw [if_neg hcT] at hc
          obtain ⟨w, hw, hwr, hwc⟩ := ml c l0 hc
          have hwt : w ≠ tid := by
            intro hcon
            rw [hcon, hrt] at hwr
            exact Role.noConfusion hwr
          exact ⟨w, hw, by rw [if_neg hwt]; exact hwr, by rw [if_neg hwt]; exact hwc⟩
      · intro i l0 hi hrl
        dsimp only at hi hrl ⊢
        by_cases hit : i = tid
        · subst hit
          rw [if_pos rfl] at hrl
          exact absurd hrl (by simp)
        · rw [if_neg hit] at hrl
          obtain ⟨j, hj, hjr, hjc⟩ := fl i l0 hi hrl
          have hjt : j ≠ tid := by
            intro hcon
            rw [hcon, hrt] at hjr
            exact Role.noConfusion hjr
          exact ⟨j, hj, by rw [if_neg hjt]; exact hjr,
            by rw [if_neg hjt, if_neg hit]; exact hjc⟩
    case some =>
      -- join: the caller becomes a follower of the existing lock
      rw [stepThread_start_join cfg tid ch l htid hpct hmap]
      obtain ⟨w, hw, hwr, hwc⟩ := ml (cfg.threads tid).channel l hmap
      have hwt : w ≠ tid := by
        intro hcon
        rw [hcon, hrt] at hwr
        exact Role.noConfusion hwr
      refine ⟨?_, ?_, ?_, ?_, ?_, ?_⟩
      · intro i l0 hi hrl
        dsimp only [Coordinator.setThread] at hi hrl ⊢
        by_cases hit : i = tid
        · subst hit
          rw [if_pos rfl] at hrl
          rcases hrl with hrl | hrl
          · cases hrl
          · cases hrl
            exact rb w l hw (Or.inl hwr)
        · rw [if_neg hit] at hrl
          exact rb i l0 hi hrl
      · intro i hi
        dsimp only [Coordinator.setThread] at hi ⊢
        by_cases hit : i = tid
        · subst hit
          rw [if_pos rfl]
          unfold HandleThread.pcRoleOK
          exact rfl
        · rw [if_neg hit]
          exact pr i hi
      · intro i l0 hi hrl
        dsimp only [Coordinator.setThread] at hi hrl ⊢
        by_cases hit : i = tid
        · subst hit
          rw [if_pos rfl] at hrl
          exact absurd hrl (by simp)
        · rw [if_neg hit] at hrl ⊢
          exact ls i l0 hi hrl
      · intro i j l0 hi hj hri hrj
        dsimp only [Coordinator.setThread] at hi hj hri hrj
        by_cases hit : i = tid <;> by_cases hjt : j = tid
        · rw [hit, hjt]
        · subst hit
          rw [if_pos rfl] at hri
          exact absurd hri (by simp)
        · subst hjt
          rw [if_pos rfl] at hrj
          exact absurd hrj (by simp)
        · rw [if_neg hit] at hri
          rw [if_neg hjt] at hrj
          exact lu i j l0 hi hj hri hrj
      · intro c l0 hc
        dsimp only [Coordinator.setThread] at hc ⊢
        obtain ⟨v, hv, hvr, hvc⟩ := ml c l0 hc
        have hvt : v ≠ tid := by
          intro hcon
          rw [hcon, hrt] at hvr
          exact Role.noConfusion hvr
        exact ⟨v, hv, by rw [if_neg hvt]; exact hvr, by rw [if_neg hvt]; exact hvc⟩
      · intro i l0 hi hrl
        dsimp only [Coordinator.setThread] at hi hrl ⊢
        by_cases hit : i = tid
        · subst hit
          rw [if_pos rfl] at hrl
          cases hrl
          exact ⟨w, hw, by rw [if_neg hwt]; exact hwr,
            by rw [if_neg hwt, if_pos rfl]; exact hwc⟩
        · rw [if_neg hit] at hrl
          obtain ⟨j, hj, hjr, hjc⟩ := fl i l0 hi hrl
          by_cases hjt : j = tid
          · rw [hjt, hrt] at hjr
            exact absurd hjr (by simp)
          · exact ⟨j, hj, by rw [if_neg hjt]; exact hjr,
              by rw [if_neg hjt, if_neg hit]; exact hjc⟩
  case leaderDispatch =>
    have hrt : (cfg.threads tid).role = Role.leader l := by
      have := pr tid htid
      unfold HandleThread.pcRoleOK at this
      rwa [hpct] at this
    have shape := ls tid l htid hrt
    unfold leaderShapeIn at shape
    rw [hpct] at shape
    obtain ⟨-, hmp, hlk⟩ := shape
    rw [stepThread_leaderDispatch cfg tid ch l htid hpct]
    refine ⟨?_, ?_, ?_, ?_, ?_, ?_⟩
    · intro i l0 hi hrl
      dsimp only at hi hrl ⊢
      by_cases hit : i = tid
      · subst hit
        rw [if_pos rfl] at hrl
        dsimp only at hrl
        exact rb _ l0 hi hrl
      · rw [if_neg hit] at hrl
        exact rb i l0 hi hrl
    · intro i hi
      dsimp only at hi ⊢
      by_cases hit : i = tid
      · subst hit
        rw [if_pos rfl]
        unfold HandleThread.pcRoleOK
        dsimp only
        exact hrt
      · rw [if_neg hit]
        exact pr i hi
    · intro i l0 hi hrl
      dsimp only at hi hrl ⊢
      by_cases hit : i = tid
      · subst hit
        rw [if_pos rfl] at hrl ⊢
        dsimp only at hrl
        rw [hrt] at hrl
        injection hrl with hl0
        subst hl0
        unfold leaderShapeIn
        dsimp only
        refine ⟨rfl, hmp, ?_⟩
        rw [if_pos rfl, hlk]
        rfl
      · rw [if_neg hit] at hrl ⊢
        by_cases hl0 : l0 = l
        · subst hl0
          exact absurd (lu i tid l0 hi htid hrl hrt) hit
        · refine leaderShapeIn_ext cfg.channelMap _ cfg.locks _ _ l0 rfl ?_
            (ls i l0 hi hrl)
          dsimp only
          rw [if_neg hl0]
    · intro i j l0 hi hj hri hrj
      dsimp only at hi hj hri hrj
      by_cases hit : i = tid <;> by_cases hjt : j = tid
      · rw [hit, hjt]
      · subst hit
        rw [if_pos rfl] at hri
        dsimp only at hri
        rw [if_neg hjt] at hrj
        exact lu _ j l0 htid hj hri hrj
      · subst hjt
        rw [if_pos rfl] at hrj
        dsimp only at hrj
        rw [if_neg hit] at hri
        exact lu i _ l0 hi htid hri hrj
      · rw [if_neg hit] at hri
        rw [if_neg hjt] at hrj
        exact lu i j l0 hi hj hri hrj
    · intro c l0 hc
      dsimp only at hc ⊢
      obtain ⟨w, hw, hwr, hwc⟩ := ml c l0 hc
      refine ⟨w, hw, ?_, ?_⟩
      · by_cases hwt : w = tid
        · subst hwt; rw [if_pos rfl]; exact hwr
        · rw [if_neg hwt]; exact hwr
      · by_cases hwt : w = tid
        · subst hwt; rw [if_pos rfl]; exact hwc
        · rw [if_neg hwt]; exact hwc
    · intro i l0 hi hrl
      dsimp only at hi hrl ⊢
      have hrl' : (cfg.threads i).role = Role.follower l0 := by
        by_cases hit : i = tid
        · subst hit; rw [if_pos rfl] at hrl; exact hrl
        · rw [if_neg hit] at hrl; exact hrl
      obtain ⟨j, hj, hjr, hjc⟩ := fl i l0 hi hrl'
      refine ⟨j, hj, ?_, ?_⟩
      · by_cases hjt : j = tid
        · subst hjt; rw [if_pos rfl]; exact hjr
        · rw [if_neg hjt]; exact hjr
      · have hci : ((if i = tid then
            { cfg.threads tid with
              pc := ThreadPC.leaderCleanup1 l
                ((handleCacheEmpty ⟨(cfg.threads tid).channel⟩ cfg.registry).resp,
                  (handleCacheEmpty ⟨(cfg.threads tid).channel⟩ cfg.registry).err) }
          else cfg.threads i)).channel = (cfg.threads i).channel := by
          by_cases hit : i = tid
          · subst hit; rw [if_pos rfl]
          · rw [if_neg hit]
        rw [hci]
        by_cases hjt : j = tid
        · subst hjt; rw [if_pos rfl]; exact hjc
        · rw [if_neg hjt]; exact hjc
  case leaderCleanup1 =>
    have hrt : (cfg.threads tid).role = Role.leader l := by
      have := pr tid htid
      unfold HandleThread.pcRoleOK at this
      rwa [hpct] at this
    have shape := ls tid l htid hrt
    unfold leaderShapeIn at shape
    rw [hpct] at shape
    obtain ⟨-, hmp, hlk⟩ := shape
    rw [stepThread_cleanup1 cfg tid ch l r htid hpct]
    refine ⟨?_, ?_, ?_, ?_, ?_, ?_⟩
    · intro i l0 hi hrl
      dsimp only at hi hrl ⊢
      by_cases hit : i = tid
      · subst hit
        rw [if_pos rfl] at hrl
        dsimp only at hrl
        exact rb _ l0 hi hrl
      · rw [if_neg hit] at hrl
        exact rb i l0 hi hrl
    · intro i hi
      dsimp only at hi ⊢
      by_cases hit : i = tid
      · subst hit
        rw [if_pos rfl]
        unfold HandleThread.pcRoleOK
        dsimp only
        exact hrt
      · rw [if_neg hit]
        exact pr i hi
    · intro i l0 hi hrl
      dsimp only at hi hrl ⊢
      by_cases hit : i = tid
      · subst hit
        rw [if_pos rfl] at hrl ⊢
        dsimp only at hrl
        rw [hrt] at hrl
        injection hrl with hl0
        subst hl0
        unfold leaderShapeIn
        dsimp only
        refine ⟨rfl, ?_, hlk⟩
        rw [if_pos rfl]
        simp
      · rw [if_neg hit] at hrl ⊢
        by_cases hl0 : l0 = l
        · subst hl0
          exact absurd (lu i tid l0 hi htid hrl hrt) hit
        · have shape0 := ls i l0 hi hrl
          unfold leaderShapeIn at shape0 ⊢
          dsimp only
          rcases hpci : (cfg.threads i).pc with _ | l' | ⟨l', r'⟩ | ⟨l', r'⟩ | l' | r'
          all_goals rw [hpci] at shape0
          · exact shape0
          · refine ⟨shape0.1, ?_, shape0.2.2⟩
            by_cases hch : (cfg.threads i).channel = (cfg.threads tid).channel
            · exfalso
              rw [hch, hmp] at shape0
              have : l = l0 := by injection shape0.2.1
              exact hl0 this.symm
            · rw [if_neg hch]; exact shape0.2.1
          · refine ⟨shape0.1, ?_, shape0.2.2⟩
            by_cases hch : (cfg.threads i).channel = (cfg.threads tid).channel
            · exfalso
              rw [hch, hmp] at shape0
              have : l = l0 := by injection shape0.2.1
              exact hl0 this.symm
            · rw [if_neg hch]; exact shape0.2.1
          · refine ⟨shape0.1, ?_, shape0.2.2⟩
            by_cases hch : (cfg.threads i).channel = (cfg.threads tid).channel
            · rw [hch, if_pos rfl]
              simp
            · rw [if_neg hch]; exact shape0.2.1
          · exact shape0
          · refine ⟨?_, shape0.2⟩
            by_cases hch : (cfg.threads i).channel = (cfg.threads tid).channel
            · rw [hch, if_pos rfl]
              simp
            · rw [if_neg hch]; exact shape0.1
    · intro i j l0 hi hj hri hrj
      dsimp only at hi hj hri hrj
      by_cases hit : i = tid <;> by_cases hjt : j = tid
      · rw [hit, hjt]
      · subst hit
        rw [if_pos rfl] at hri
        dsimp only at hri
        rw [if_neg hjt] at hrj
        exact lu _ j l0 htid hj hri hrj
      · subst hjt
        rw [if_pos rfl] at hrj
        dsimp only at hrj
        rw [if_neg hit] at hri
        exact lu i _ l0 hi htid hri hrj
      · rw [if_neg hit] at hri
        rw [if_neg hjt] at hrj
        exact lu i j l0 hi hj hri hrj
    · intro c l0 hc
      dsimp only at hc ⊢
      by_cases hcT : c = (cfg.threads tid).channel
      · rw [if_pos hcT] at hc
        exact absurd hc (by simp)
      · rw [if_neg hcT] at hc
        obtain ⟨w, hw, hwr, hwc⟩ := ml c l0 hc
        refine ⟨w, hw, ?_, ?_⟩
        · by_cases hwt : w = tid
          · subst hwt; rw [if_pos rfl]; exact hwr
          · rw [if_neg hwt]; exact hwr
        · by_cases hwt : w = tid
          · subst hwt; rw [if_pos rfl]; exact hwc
          · rw [if_neg hwt]; exact hwc
    · intro i l0 hi hrl
      dsimp only at hi hrl ⊢
      have hrl' : (cfg.threads i).role = Role.follower l0 := by
        by_cases hit : i = tid
        · subst hit; rw [if_pos rfl] at hrl; exact hrl
        · rw [if_neg hit] at hrl; exact hrl
      obtain ⟨j, hj, hjr, hjc⟩ := fl i l0 hi hrl'
      refine ⟨j, hj, ?_, ?_⟩
      · by_cases hjt : j = tid
        · subst hjt; rw [if_pos rfl]; exact hjr
        · rw [if_neg hjt]; exact hjr
      · have hci : ((if i = tid then { cfg.threads tid with pc := ThreadPC.leaderCleanup2 l r }
          else cfg.threads i)).channel = (cfg.threads i).channel := by
          by_cases hit : i = tid
          · subst hit; rw [if_pos rfl]
          · rw [if_neg hit]
        rw [hci]
        by_cases hjt : j = tid
        · subst hjt; rw [if_pos rfl]; exact hjc
        · rw [if_neg hjt]; exact hjc
  case leaderCleanup2 =>
    have hrt : (cfg.threads tid).role = Role.leader l := by
      have := pr tid htid
      unfold HandleThread.pcRoleOK at this
      rwa [hpct] at this
    have shape := ls tid l htid hrt
    unfold leaderShapeIn at shape
    rw [hpct] at shape
    obtain ⟨-, hne, hlk⟩ := shape
    rw [stepThread_cleanup2 cfg tid ch l r htid hpct]
    refine ⟨?_, ?_, ?_, ?_, ?_, ?_⟩
    · intro i l0 hi hrl
      dsimp only at hi hrl ⊢
      by_cases hit : i = tid
      · subst hit
        rw [if_pos rfl] at hrl
        dsimp only at hrl
        exact rb _ l0 hi hrl
      · rw [if_neg hit] at hrl
        exact rb i l0 hi hrl
    · intro i hi
      dsimp only at hi ⊢
      by_cases hit : i = tid
      · subst hit
        rw [if_pos rfl]
        unfold HandleThread.pcRoleOK
        dsimp only
      · rw [if_neg hit]
        exact pr i hi
    · intro i l0 hi hrl
      dsimp only at hi hrl ⊢
      by_cases hit : i = tid
      · subst hit
        rw [if_pos rfl] at hrl ⊢
        dsimp only at hrl
        rw [hrt] at hrl
        injection hrl with hl0
        subst hl0
        unfold leaderShapeIn
        dsimp only
        refine ⟨hne, ?_⟩
        rw [if_pos rfl, hlk]
        rfl
      · rw [if_neg hit] at hrl ⊢
        by_cases hl0 : l0 = l
        · subst hl0
          exact absurd (lu i _ l0 hi htid hrl hrt) hit
        · refine leaderShapeIn_ext cfg.channelMap _ cfg.locks _ _ l0 rfl ?_
            (ls i l0 hi hrl)
          dsimp only
          rw [if_neg hl0]
    · intro i j l0 hi hj hri hrj
      dsimp only at hi hj hri hrj
      by_cases hit : i = tid <;> by_cases hjt : j = tid
      · rw [hit, hjt]
      · subst hit
        rw [if_pos rfl] at hri
        dsimp only at hri
        rw [if_neg hjt] at hrj
        exact lu _ j l0 htid hj hri hrj
      · subst hjt
        rw [if_pos rfl] at hrj
        dsimp only at hrj
        rw [if_neg hit] at hri
        exact lu i _ l0 hi htid hri hrj
      · rw [if_neg hit] at hri
        rw [if_neg hjt] at hrj
        exact lu i j l0 hi hj hri hrj
    · intro c l0 hc
      dsimp only at hc ⊢
      obtain ⟨w, hw, hwr, hwc⟩ := ml c l0 hc
      refine ⟨w, hw, ?_, ?_⟩
      · by_cases hwt : w = tid
        · subst hwt; rw [if_pos rfl]; exact hwr
        · rw [if_neg hwt]; exact hwr
      · by_cases hwt : w = tid
        · subst hwt; rw [if_pos rfl]; exact hwc
        · rw [if_neg hwt]; exact hwc
    · intro i l0 hi hrl
      dsimp only at hi hrl ⊢
      have hrl' : (cfg.threads i).role = Role.follower l0 := by
        by_cases hit : i = tid
        · subst hit; rw [if_pos rfl] at hrl; exact hrl
        · rw [if_neg hit] at hrl; exact hrl
      obtain ⟨j, hj, hjr, hjc⟩ := fl i l0 hi hrl'
      refine ⟨j, hj, ?_, ?_⟩
      · by_cases hjt : j = tid
        · subst hjt; rw [if_pos rfl]; exact hjr
        · rw [if_neg hjt]; exact hjr
      · have hci : ((if i = tid then { cfg.threads tid with pc := ThreadPC.finished r }
          else cfg.threads i)).channel = (cfg.threads i).channel := by
          by_cases hit : i = tid
          · subst hit; rw [if_pos rfl]
          · rw [if_neg hit]
        rw [hci]
        by_cases hjt : j = tid
        · subst hjt; rw [if_pos rfl]; exact hjc
        · rw [if_neg hjt]; exact hjc
  case waitSelect =>
    cases ch with
    | go =>
      rw [stepThread_wait_go cfg tid l htid hpct]
      exact ⟨rb, pr, ls, lu, ml, fl⟩
    | selDone =>
      rcases hlk : cfg.locks l with _ | pcall
      · rw [stepThread_wait_done_nolock cfg tid l htid hpct hlk]
        exact ⟨rb, pr, ls, lu, ml, fl⟩
      · rcases hd : pcall.done
        · rw [stepThread_wait_done_open cfg tid l pcall htid hpct hlk hd]
          exact ⟨rb, pr, ls, lu, ml, fl⟩
        · rw [stepThread_wait_done_closed cfg tid l pcall htid hpct hlk hd]
          refine JInv_of_eqs cfg _ rfl rfl rfl rfl ?_ ⟨rb, pr, ls, lu, ml, fl⟩
          intro i hi
          dsimp only [Coordinator.setThread]
          by_cases hit : i = tid
          · subst hit
            rw [if_pos rfl]
            exact ⟨rfl, rfl, Or.inr ⟨⟨_, rfl⟩, l, hpct⟩⟩
          · rw [if_neg hit]
            exact ⟨rfl, rfl, Or.inl rfl⟩
    | selTimer =>
      rw [stepThread_wait_timer cfg tid l htid hpct]
      refine JInv_of_eqs cfg _ rfl rfl rfl rfl ?_ ⟨rb, pr, ls, lu, ml, fl⟩
      intro i hi
      dsimp only
      by_cases hit : i = tid
      · subst hit
        rw [if_pos rfl]
        exact ⟨rfl, rfl, Or.inr ⟨⟨_, rfl⟩, l, hpct⟩⟩
      · rw [if_neg hit]
        exact ⟨rfl, rfl, Or.inl rfl⟩
    | selCtx =>
      rcases hce : (cfg.threads tid).ctxErr with _ | e
      · rw [stepThread_wait_ctx_none cfg tid l htid hpct hce]
        exact ⟨rb, pr, ls, lu, ml, fl⟩
      · rw [stepThread_wait_ctx_some cfg tid l e htid hpct hce]
        refine JInv_of_eqs cfg _ rfl rfl rfl rfl ?_ ⟨rb, pr, ls, lu, ml, fl⟩
        intro i hi
        dsimp only [Coordinator.setThread]
        by_cases hit : i = tid
        · subst hit
          rw [if_pos rfl]
          exact ⟨rfl, rfl, Or.inr ⟨⟨_, rfl⟩, l, hpct⟩⟩
        · rw [if_neg hit]
          exact ⟨rfl, rfl, Or.inl rfl⟩
  case finished =>
    rw [stepThread_finished cfg tid ch r htid hpct]
    exact ⟨rb, pr, ls, lu, ml, fl⟩

/-- The invariant holds initially: no roles, no locks, empty map. -/
theorem JInv_init (h : CacheEmptyHandler) (chans : List (String × Option GoError)) :
    JInv (initCoordinator h chans) := by
  refine ⟨?_, ?_, ?_, ?_, ?_, ?_⟩
  · intro i l hi hrl
    exact absurd hrl (by simp [initCoordinator, mkThread])
  · intro i hi
    unfold HandleThread.pcRoleOK
    simp [initCoordinator, mkThread]
  · intro i l hi hrl
    exact absurd hrl (by simp [initCoordinator, mkThread])
  · intro i j l hi hj hri _
    exact absurd hri (by simp [initCoordinator, mkThread])
  · intro c l hc
    exact absurd hc (by simp [initCoordinator])
  · intro i l hi hrl
    exact absurd hrl (by simp [initCoordinator, mkThread])

/-- The invariant holds in every reachable state. -/
theorem JInv_runSched (cfg : Coordinator) (hJ : JInv cfg) :
    ∀ (sched : List (Nat × SelChoice)), JInv (runSched cfg sched) := by
  intro sched
  induction sched generalizing cfg with
  | nil => exact hJ
  | cons it s ih => exact ih (stepThread cfg it.1 it.2) (JInv_step cfg hJ it.1 it.2)

/-! ## Claims C2 and C3: leader cleanup and the per-channel lock invariant -/

/-- Claim C2: on the leader path the map-entry removal and the opening of
the completion signal happen only after the `(response, error)` result is
stored on the lock, and they happen on every exit path of the leader
(the registry, and hence the dispatch outcome, error or not, is universally
quantified): in every reachable state, a leader observed just after its map
delete already stores its returned pair with the done signal still closed,
and a finished leader's lock stores the returned pair with the signal open
while the channel map no longer holds that leader's lock — no channel key
stays pending after its leader finishes. -/
theorem c2_leader_cleanup_unconditional (h : CacheEmptyHandler)
    (chans : List (String × Option GoError)) (sched : List (Nat × SelChoice))
    (i l : Nat) (r : Option NotifyCacheEmptyResponse × Option GoError)
    (hi : i < (runSched (initCoordinator h chans) sched).nThreads)
    (hrole : ((runSched (initCoordinator h chans) sched).threads i).role = Role.leader l) :
    (((runSched (initCoordinator h chans) sched).threads i).pc = ThreadPC.leaderCleanup2 l r →
      (runSched (initCoordinator h chans) sched).locks l = some ⟨r.1, r.2, false⟩ ∧
      (runSched (initCoordinator h chans) sched).channelMap
        ((runSched (initCoordinator h chans) sched).threads i).channel ≠ some l) ∧
    (((runSched (initCoordinator h chans) sched).threads i).pc = ThreadPC.finished r →
      (runSched (initCoordinator h chans) sched).locks l = some ⟨r.1, r.2, true⟩ ∧
      (runSched (initCoordinator h chans) sched).channelMap
        ((runSched (initCoordinator h chans) sched).threads i).channel ≠ some l) := by
  have hJ := JInv_runSched (initCoordinator h chans) (JInv_init h chans) sched
  have shape := hJ.leaderShape i l hi hrole
  constructor
  · intro hpc
    unfold leaderShapeIn at shape
    rw [hpc] at shape
    exact ⟨shape.2.2, shape.2.1⟩
  · intro hpc
    unfold leaderShapeIn at shape
    rw [hpc] at shape
    exact ⟨shape.2, shape.1⟩

/-- Schedule driving the single caller of the cleanup witness to the end of
its leader path: install, dispatch and store, delete, close. -/
def schedLeaderOnly : List (Nat × SelChoice) :=
  [(0, SelChoice.go), (0, SelChoice.go), (0, SelChoice.go), (0, SelChoice.go)]

/-- Witness for C2: the finished leader of a one-caller run has its pair
stored, the done signal open and the map entry gone. -/
theorem c2_leader_cleanup_unconditional_witness :
    (0 < (runSched (initCoordinator handlerTest [("ch", none)]) schedLeaderOnly).nThreads ∧
      ((runSched (initCoordinator handlerTest [("ch", none)]) schedLeaderOnly).threads 0).role =
        Role.leader 0 ∧
      ((runSched (initCoordinator handlerTest [("ch", none)]) schedLeaderOnly).threads 0).pc =
        ThreadPC.finished (some ⟨some ⟨true⟩⟩, none)) ∧
    ((runSched (initCoordinator handlerTest [("ch", none)]) schedLeaderOnly).locks 0 =
        some ⟨some ⟨some ⟨true⟩⟩, none, true⟩ ∧
      (runSched (initCoordinator handlerTest [("ch", none)]) schedLeaderOnly).channelMap
        ((runSched (initCoordinator handlerTest [("ch", none)]) schedLeaderOnly).threads 0).channel ≠
        some 0) :=
  ⟨⟨by decide, by decide, by decide⟩,
    (c2_leader_cleanup_unconditional handlerTest [("ch", none)] schedLeaderOnly 0 0
      (some ⟨some ⟨true⟩⟩, none) (by decide) (by decide)).2 (by decide)⟩

/-- Claim C3: at most one pending call exists per channel at every instant —
among any callers for the same key, at most one ever observes that it
installed the entry for a given lock (leader uniqueness), every present map
entry belongs to exactly that unique installing leader for that channel, and
every follower shares the lock of a leader for the same channel (it received
that same existing entry). -/
theorem c3_single_flight_lock (h : CacheEmptyHandler)
    (chans : List (String × Option GoError)) (sched : List (Nat × SelChoice)) :
    (∀ i j l, i < (runSched (initCoordinator h chans) sched).nThreads →
      j < (runSched (initCoordinator h chans) sched).nThreads →
      ((runSched (initCoordinator h chans) sched).threads i).role = Role.leader l →
      ((runSched (initCoordinator h chans) sched).threads j).role = Role.leader l → i = j) ∧
    (∀ c l, (runSched (initCoordinator h chans) sched).channelMap c = some l →
      ∃ j, j < (runSched (initCoordinator h chans) sched).nThreads ∧
        ((runSched (initCoordinator h chans) sched).threads j).role = Role.leader l ∧
        ((runSched (initCoordinator h chans) sched).threads j).channel = c) ∧
    (∀ i l, i < (runSched (initCoordinator h chans) sched).nThreads →
      ((runSched (initCoordinator h chans) sched).threads i).role = Role.follower l →
      ∃ j, j < (runSched (initCoordinator h chans) sched).nThreads ∧
        ((runSched (initCoordinator h chans) sched).threads j).role = Role.leader l ∧
        ((runSched (initCoordinator h chans) sched).threads j).channel =
          ((runSched (initCoordinator h chans) sched).threads i).channel) := by
  have hJ := JInv_runSched (initCoordinator h chans) (JInv_init h chans) sched
  exact ⟨hJ.leaderUnique, hJ.mapLeader, hJ.followerLeader⟩

/-- Schedule of the C3 witness: both callers perform `getOrCreateLock`. -/
def schedBothArrive : List (Nat × SelChoice) := [(0, SelChoice.go), (1, SelChoice.go)]

/-- Witness for C3: with two concurrent callers for `"ch"`, the second is a
follower of lock 0 and a leader of lock 0 for the same channel exists. -/
theorem c3_single_flight_lock_witness :
    (1 < (runSched (initCoordinator handlerTest [("ch", none), ("ch", none)]) schedBothArrive).nThreads ∧
      ((runSched (initCoordinator handlerTest [("ch", none), ("ch", none)]) schedBothArrive).threads 1).role =
        Role.follower 0) ∧
    (∃ j, j < (runSched (initCoordinator handlerTest [("ch", none), ("ch", none)]) schedBothArrive).nThreads ∧
      ((runSched (initCoordinator handlerTest [("ch", none), ("ch", none)]) schedBothArrive).threads j).role =
        Role.leader 0 ∧
      ((runSched (initCoordinator handlerTest [("ch", none), ("ch", none)]) schedBothArrive).threads j).channel =
        ((runSched (initCoordinator handlerTest [("ch", none), ("ch", none)]) schedBothArrive).threads 1).channel) :=
  ⟨⟨by decide, by decide⟩,
    (c3_single_flight_lock handlerTest [("ch", none), ("ch", none)] schedBothArrive).2.2 1 0
      (by decide) (by decide)⟩

/-! ## Claim C1: single-flight deduplication

The timed hypotheses of the claim are rendered untimed: "every call arrives
within less than the lock-wait timeout and the backend responds before that
timeout" becomes (a) no follower's timer branch and no context branch fires
in the schedule, and (b) no caller is still before its `getOrCreateLock`
once the leader has completed (`arrivedInTime` at every intermediate
state) — the calls genuinely overlap the single in-flight window. -/

/-- The state a non-leader caller for the claim's channel can be in while
the single in-flight window is open: not yet at `getOrCreateLock`, waiting
on lock 0, or — only once lock 0 is closed with the leader's stored pair —
finished with exactly that pair. -/
def FollowerOK (d : DispatchOutcome) (cfg : Coordinator) (i : Nat) : Prop :=
  ((cfg.threads i).role = Role.none ∧ (cfg.threads i).pc = ThreadPC.start) ∨
  ((cfg.threads i).role = Role.follower 0 ∧ (cfg.threads i).pc = ThreadPC.waitSelect 0) ∨
  ((cfg.threads i).role = Role.follower 0 ∧
    (cfg.threads i).pc = ThreadPC.finished (d.resp, d.err) ∧
    cfg.locks 0 = some ⟨d.resp, d.err, true⟩)

theorem FollowerOK_ext (d : DispatchOutcome) (cfg cfg' : Coordinator) (i : Nat)
    (hth : cfg'.threads i = cfg.threads i) (hlk : cfg'.locks 0 = cfg.locks 0)
    (h : FollowerOK d cfg i) : FollowerOK d cfg' i := by
  unfold FollowerOK at *
  rw [hth, hlk]
  exact h

/-- Phases of a run in which all callers target channel `c`, no timer or
context branch fires, and all callers arrive during the in-flight window:
before the first arrival (`phA`), and the four stations of the unique
leader's path (`phB1` to `phB4`), with every other caller in a
`FollowerOK` state throughout. -/
inductive C1Phase (d : DispatchOutcome) (c : String) (n : Nat) : Coordinator → Prop where
  | phA (cfg : Coordinator)
      (hnext : cfg.nextLockId = 0)
      (hmap : cfg.channelMap c = none)
      (htr : cfg.dispatchTrace = [])
      (hct : cfg.callTrace = [])
      (hth : ∀ i, i < n → (cfg.threads i).role = Role.none ∧ (cfg.threads i).pc = ThreadPC.start) :
      C1Phase d c n cfg
  | phB1 (cfg : Coordinator) (L : Nat)
      (hL : L < n) (hrole : (cfg.threads L).role = Role.leader 0)
      (hpc : (cfg.threads L).pc = ThreadPC.leaderDispatch 0)
      (hnext : cfg.nextLockId = 1)
      (hmap : cfg.channelMap c = some 0)
      (hlk : cfg.locks 0 = some ⟨none, none, false⟩)
      (htr : cfg.dispatchTrace = []) (hct : cfg.callTrace = [])
      (hfol : ∀ i, i < n → i ≠ L → FollowerOK d cfg i) :
      C1Phase d c n cfg
  | phB2 (cfg : Coordinator) (L : Nat)
      (hL : L < n) (hrole : (cfg.threads L).role = Role.leader 0)
      (hpc : (cfg.threads L).pc = ThreadPC.leaderCleanup1 0 (d.resp, d.err))
      (hnext : cfg.nextLockId = 1)
      (hmap : cfg.channelMap c = some 0)
      (hlk : cfg.locks 0 = some ⟨d.resp, d.err, false⟩)
      (htr : cfg.dispatchTrace = [c]) (hct : cfg.callTrace = d.calls)
      (hfol : ∀ i, i < n → i ≠ L → FollowerOK d cfg i) :
      C1Phase d c n cfg
  | phB3 (cfg : Coordinator) (L : Nat)
      (hL : L < n) (hrole : (cfg.threads L).role = Role.leader 0)
      (hpc : (cfg.threads L).pc = ThreadPC.leaderCleanup2 0 (d.resp, d.err))
      (hnext : cfg.nextLockId = 1)
      (hmap : cfg.channelMap c = none)
      (hlk : cfg.locks 0 = some ⟨d.resp, d.err, false⟩)
      (htr : cfg.dispatchTrace = [c]) (hct : cfg.callTrace = d.calls)
      (hfol : ∀ i, i < n → i ≠ L → FollowerOK d cfg i) :
      C1Phase d c n cfg
  | phB4 (cfg : Coordinator) (L : Nat)
      (hL : L < n) (hrole : (cfg.threads L).role = Role.leader 0)
      (hpc : (cfg.threads L).pc = ThreadPC.finished (d.resp, d.err))
      (hnext : cfg.nextLockId = 1)
      (hmap : cfg.channelMap c = none)
      (hlk : cfg.locks 0 = some ⟨d.resp, d.err, true⟩)
      (htr : cfg.dispatchTrace = [c]) (hct : cfg.callTrace = d.calls)
      (hfol : ∀ i, i < n → i ≠ L → FollowerOK d cfg i) :
      C1Phase d c n cfg

/-- Invariant of the C1 scenario: the registry and thread population are
fixed, every caller targets channel `c`, and the state is in one of the
single-flight phases for the dispatch outcome of `c` over that registry. -/
def C1Inv (reg : Registry) (c : String) (n : Nat) (cfg : Coordinator) : Prop :=
  cfg.registry = reg ∧ cfg.nThreads = n ∧
  (∀ i, i < n → (cfg.threads i).channel = c) ∧
  C1Phase (handleCacheEmpty ⟨c⟩ reg) c n cfg

/-- One step preserves the C1 invariant, provided the step is not a timer or
context branch and arrival is still timely. -/
theorem C1Inv_step (reg : Registry) (c : String) (n : Nat) (cfg : Coordinator)
    (tid : Nat) (ch : SelChoice)
    (hinv : C1Inv reg c n cfg) (harr : arrivedInTime cfg)
    (hch1 : ch ≠ SelChoice.selTimer) (hch2 : ch ≠ SelChoice.selCtx) :
    C1Inv reg c n (stepThread cfg tid ch) := by
  obtain ⟨hreg, hn, hchan, hph⟩ := hinv
  by_cases htid : tid < cfg.nThreads
  case neg =>
    rw [stepThread_oob cfg tid ch htid]
    exact ⟨hreg, hn, hchan, hph⟩
  case pos =>
  have htid' : tid < n := hn ▸ htid
  have hchT : (cfg.threads tid).channel = c := hchan tid htid'
  cases hph with
  | phA hnext hmap htr hct hth =>
    obtain ⟨hrt, hpct⟩ := hth tid htid'
    have hmapT : cfg.channelMap (cfg.threads tid).channel = none := by
      rw [hchT]; exact hmap
    rw [stepThread_start_install cfg tid ch htid hpct hmapT]
    refine ⟨hreg, hn, ?_, ?_⟩
    · intro i hi
      dsimp only
      by_cases hit : i = tid
      · subst hit
        rw [if_pos rfl]
        exact hchan _ hi
      · rw [if_neg hit]
        exact hchan i hi
    · refine C1Phase.phB1 _ tid htid' ?_ ?_ ?_ ?_ ?_ ?_ ?_ ?_
      · dsimp only
        rw [if_pos rfl]
        dsimp only
        rw [hnext]
      · dsimp only
        rw [if_pos rfl]
        dsimp only
        rw [hnext]
      · dsimp only
        rw [hnext]
      · dsimp only
        rw [hchT, if_pos rfl, hnext]
      · dsimp only
        rw [hnext, if_pos rfl]
      · exact htr
      · exact hct
      · intro i hi hiL
        refine Or.inl ⟨?_, ?_⟩
        · dsimp only
          rw [if_neg hiL]
          exact (hth i hi).1
        · dsimp only
          rw [if_neg hiL]
          exact (hth i hi).2
  | phB1 L hL hrole hpc hnext hmap hlk htr hct hfol =>
    by_cases hLt : tid = L
    · subst hLt
      rw [stepThread_leaderDispatch cfg tid ch 0 htid hpc, hchT, hreg]
      refine ⟨rfl, hn, ?_, ?_⟩
      · intro i hi
        dsimp only
        by_cases hit : i = tid
        · subst hit
          rw [if_pos rfl]
          exact hchan _ hi
        · rw [if_neg hit]
          exact hchan i hi
      · refine C1Phase.phB2 _ tid htid' ?_ ?_ hnext hmap ?_ ?_ ?_ ?_
        · dsimp only
          rw [if_pos rfl]
          dsimp only
          exact hrole
        · dsimp only
          rw [if_pos rfl]
        · dsimp only
          rw [if_pos rfl, hlk]
          rfl
        · dsimp only
          rw [htr]
          rfl
        · dsimp only
          rw [hct]
          rfl
        · intro i hi hiL
          have hthi : (if i = tid then
              { cfg.threads tid with
                pc := ThreadPC.leaderCleanup1 0
                  ((handleCacheEmpty ⟨c⟩ reg).resp, (handleCacheEmpty ⟨c⟩ reg).err) }
            else cfg.threads i) = cfg.threads i := by
            rw [if_neg hiL]
          rcases hfol i hi hiL with h | h | h
          · exact Or.inl ⟨by dsimp only; rw [hthi]; exact h.1,
              by dsimp only; rw [hthi]; exact h.2⟩
          · exact Or.inr (Or.inl ⟨by dsimp only; rw [hthi]; exact h.1,
              by dsimp only; rw [hthi]; exact h.2⟩)
          · exfalso
            rw [hlk] at h
            exact absurd h.2.2 (by simp)
    · have hLt' : L ≠ tid := fun hx => hLt hx.symm
      rcases hfol tid htid' hLt with ⟨hrt, hpct⟩ | ⟨hrt, hpct⟩ | ⟨hrt, hpct, hlk3⟩
      · have hmapT : cfg.channelMap (cfg.threads tid).channel = some 0 := by
          rw [hchT]; exact hmap
        rw [stepThread_start_join cfg tid ch 0 htid hpct hmapT]
        refine ⟨hreg, hn, ?_, ?_⟩
        · intro i hi
          dsimp only [Coordinator.setThread]
          by_cases hit : i = tid
          · subst hit
            rw [if_pos rfl]
            exact hchan _ hi
          · rw [if_neg hit]
            exact hchan i hi
        · refine C1Phase.phB1 _ L hL ?_ ?_ hnext hmap hlk htr hct ?_
          · dsimp only [Coordinator.setThread]
            rw [if_neg hLt']
            exact hrole
          · dsimp only [Coordinator.setThread]
            rw [if_neg hLt']
            exact hpc
          · intro i hi hiL
            by_cases hit : i = tid
            · subst hit
              refine Or.inr (Or.inl ⟨?_, ?_⟩)
              · dsimp only [Coordinator.setThread]
                rw [if_pos rfl]
              · dsimp only [Coordinator.setThread]
                rw [if_pos rfl]
            · refine FollowerOK_ext _ cfg _ i ?_ rfl (hfol i hi hiL)
              dsimp only [Coordinator.setThread]
              rw [if_neg hit]
      · cases ch with
        | go =>
          rw [stepThread_wait_go cfg tid 0 htid hpct]
          exact ⟨hreg, hn, hchan, C1Phase.phB1 _ L hL hrole hpc hnext hmap hlk htr hct hfol⟩
        | selDone =>
          rw [stepThread_wait_done_open cfg tid 0 ⟨none, none, false⟩ htid hpct hlk rfl]
          exact ⟨hreg, hn, hchan, C1Phase.phB1 _ L hL hrole hpc hnext hmap hlk htr hct hfol⟩
        | selTimer => exact absurd rfl hch1
        | selCtx => exact absurd rfl hch2
      · exfalso
        rw [hlk] at hlk3
        exact absurd hlk3 (by simp)
  | phB2 L hL hrole hpc hnext hmap hlk htr hct hfol =>
    by_cases hLt : tid = L
    · subst hLt
      rw [stepThread_cleanup1 cfg tid ch 0
        ((handleCacheEmpty ⟨c⟩ reg).resp, (handleCacheEmpty ⟨c⟩ reg).err) htid hpc]
      refine ⟨hreg, hn, ?_, ?_⟩
      · intro i hi
        dsimp only
        by_cases hit : i = tid
        · subst hit
          rw [if_pos rfl]
          exact hchan _ hi
        · rw [if_neg hit]
          exact hchan i hi
      · refine C1Phase.phB3 _ tid htid' ?_ ?_ hnext ?_ hlk htr hct ?_
        · dsimp only
          rw [if_pos rfl]
          dsimp only
          exact hrole
        · dsimp only
          rw [if_pos rfl]
        · dsimp only
          rw [hchT, if_pos rfl]
        · intro i hi hiL
          have hthi : (if i = tid then
              { cfg.threads tid with
                pc := ThreadPC.leaderCleanup2 0
                  ((handleCacheEmpty ⟨c⟩ reg).resp, (handleCacheEmpty ⟨c⟩ reg).err) }
            else cfg.threads i) = cfg.threads i := by
            rw [if_neg hiL]
          refine FollowerOK_ext _ cfg _ i ?_ rfl (hfol i hi hiL)
          dsimp only
          rw [hthi]
    · have hLt' : L ≠ tid := fun hx => hLt hx.symm
      rcases hfol tid htid' hLt with ⟨hrt, hpct⟩ | ⟨hrt, hpct⟩ | ⟨hrt, hpct, hlk3⟩
      · have hmapT : cfg.channelMap (cfg.threads tid).channel = some 0 := by
          rw [hchT]; exact hmap
        rw [stepThread_start_join cfg tid ch 0 htid hpct hmapT]
        refine ⟨hreg, hn, ?_, ?_⟩
        · intro i hi
          dsimp only [Coordinator.setThread]
          by_cases hit : i = tid
          · subst hit
            rw [if_pos rfl]
            exact hchan _ hi
          · rw [if_neg hit]
            exact hchan i hi
        · refine C1Phase.phB2 _ L hL ?_ ?_ hnext hmap hlk htr hct ?_
          · dsimp only [Coordinator.setThread]
            rw [if_neg hLt']
            exact hrole
          · dsimp only [Coordinator.setThread]
            rw [if_neg hLt']
            exact hpc
          · intro i hi hiL
            by_cases hit : i = tid
            · subst hit
              refine Or.inr (Or.inl ⟨?_, ?_⟩)
              · dsimp only [Coordinator.setThread]
                rw [if_pos rfl]
              · dsimp only [Coordinator.setThread]
                rw [if_pos rfl]
            · refine FollowerOK_ext _ cfg _ i ?_ rfl (hfol i hi hiL)
              dsimp only [Coordinator.setThread]
              rw [if_neg hit]
      · cases ch with
        | go =>
          rw [stepThread_wait_go cfg tid 0 htid hpct]
          exact ⟨hreg, hn, hchan, C1Phase.phB2 _ L hL hrole hpc hnext hmap hlk htr hct hfol⟩
        | selDone =>
          rw [stepThread_wait_done_open cfg tid 0
            ⟨(handleCacheEmpty ⟨c⟩ reg).resp, (handleCacheEmpty ⟨c⟩ reg).err, false⟩
            htid hpct hlk rfl]
          exact ⟨hreg, hn, hchan, C1Phase.phB2 _ L hL hrole hpc hnext hmap hlk htr hct hfol⟩
        | selTimer => exact absurd rfl hch1
        | selCtx => exact absurd rfl hch2
      · exfalso
        rw [hlk] at hlk3
        exact absurd hlk3 (by simp)
  | phB3 L hL hrole hpc hnext hmap hlk htr hct hfol =>
    have hpast : anyPastCleanup cfg = true := by
      unfold anyPastCleanup
      rw [List.any_eq_true]
      refine ⟨L, List.mem_range.mpr (by rw [hn]; exact hL), ?_⟩
      simp [HandleThread.pastCleanup, hpc]
    by_cases hLt : tid = L
    · subst hLt
      rw [stepThread_cleanup2 cfg tid ch 0
        ((handleCacheEmpty ⟨c⟩ reg).resp, (handleCacheEmpty ⟨c⟩ reg).err) htid hpc]
      refine ⟨hreg, hn, ?_, ?_⟩
      · intro i hi
        dsimp only
        by_cases hit : i = tid
        · subst hit
          rw [if_pos rfl]
          exact hchan _ hi
        · rw [if_neg hit]
          exact hchan i hi
      · refine C1Phase.phB4 _ tid htid' ?_ ?_ hnext hmap ?_ htr hct ?_
        · dsimp only
          rw [if_pos rfl]
          dsimp only
          exact hrole
        · dsimp only
          rw [if_pos rfl]
        · dsimp only
          rw [if_pos rfl, hlk]
          rfl
        · intro i hi hiL
          have hthi : (if i = tid then
              { cfg.threads tid with
                pc := ThreadPC.finished
                  ((handleCacheEmpty ⟨c⟩ reg).resp, (handleCacheEmpty ⟨c⟩ reg).err) }
            else cfg.threads i) = cfg.threads i := by
            rw [if_neg hiL]
          rcases hfol i hi hiL with h | h | h
          · exact Or.inl ⟨by dsimp only; rw [hthi]; exact h.1,
              by dsimp only; rw [hthi]; exact h.2⟩
          · exact Or.inr (Or.inl ⟨by dsimp only; rw [hthi]; exact h.1,
              by dsimp only; rw [hthi]; exact h.2⟩)
          · exfalso
            rw [hlk] at h
            exact absurd h.2.2 (by simp)
    · have hLt' : L ≠ tid := fun hx => hLt hx.symm
      rcases hfol tid htid' hLt with ⟨hrt, hpct⟩ | ⟨hrt, hpct⟩ | ⟨hrt, hpct, hlk3⟩
      · exact absurd hpct (harr hpast tid htid)
      · cases ch with
        | go =>
          rw [stepThread_wait_go cfg tid 0 htid hpct]
          exact ⟨hreg, hn, hchan, C1Phase.phB3 _ L hL hrole hpc hnext hmap hlk htr hct hfol⟩
        | selDone =>
          rw [stepThread_wait_done_open cfg tid 0
            ⟨(handleCacheEmpty ⟨c⟩ reg).resp, (handleCacheEmpty ⟨c⟩ reg).err, false⟩
            htid hpct hlk rfl]
          exact ⟨hreg, hn, hchan, C1Phase.phB3 _ L hL hrole hpc hnext hmap hlk htr hct hfol⟩
        | selTimer => exact absurd rfl hch1
        | selCtx => exact absurd rfl hch2
      · exfalso
        rw [hlk] at hlk3
        exact absurd hlk3 (by simp)
  | phB4 L hL hrole hpc hnext hmap hlk htr hct hfol =>
    have hpast : anyPastCleanup cfg = true := by
      unfold anyPastCleanup
      rw [List.any_eq_true]
      refine ⟨L, List.mem_range.mpr (by rw [hn]; exact hL), ?_⟩
      simp [HandleThread.pastCleanup, hpc, hrole]
    by_cases hLt : tid = L
    · subst hLt
      rw [stepThread_finished cfg tid ch
        ((handleCacheEmpty ⟨c⟩ reg).resp, (handleCacheEmpty ⟨c⟩ reg).err) htid hpc]
      exact ⟨hreg, hn, hchan, C1Phase.phB4 _ tid htid' hrole hpc hnext hmap hlk htr hct hfol⟩
    · have hLt' : L ≠ tid := fun hx => hLt hx.symm
      rcases hfol tid htid' hLt with ⟨hrt, hpct⟩ | ⟨hrt, hpct⟩ | ⟨hrt, hpct, hlk3⟩
      · exact absurd hpct (harr hpast tid htid)
      · cases ch with
        | go =>
          rw [stepThread_wait_go cfg tid 0 htid hpct]
          exact ⟨hreg, hn, hchan, C1Phase.phB4 _ L hL hrole hpc hnext hmap hlk htr hct hfol⟩
        | selDone =>
          rw [stepThread_wait_done_closed cfg tid 0
            ⟨(handleCacheEmpty ⟨c⟩ reg).resp, (handleCacheEmpty ⟨c⟩ reg).err, true⟩
            htid hpct hlk rfl]
          refine ⟨hreg, hn, ?_, ?_⟩
          · intro i hi
            dsimp only [Coordinator.setThread]
            by_cases hit : i = tid
            · subst hit
              rw [if_pos rfl]
              exact hchan _ hi
            · rw [if_neg hit]
              exact hchan i hi
          · refine C1Phase.phB4 _ L hL ?_ ?_ hnext hmap hlk htr hct ?_
            · dsimp only [Coordinator.setThread]
              rw [if_neg hLt']
              exact hrole
            · dsimp only [Coordinator.setThread]
              rw [if_neg hLt']
              exact hpc
            · intro i hi hiL
              by_cases hit : i = tid
              · subst hit
                refine Or.inr (Or.inr ⟨?_, ?_, hlk⟩)
                · dsimp only [Coordinator.setThread]
                  rw [if_pos rfl]
                  exact hrt
                · dsimp only [Coordinator.setThread]
                  rw [if_pos rfl]
              · refine FollowerOK_ext _ cfg _ i ?_ rfl (hfol i hi hiL)
                dsimp only [Coordinator.setThread]
                rw [if_neg hit]
        | selTimer => exact absurd rfl hch1
        | selCtx => exact absurd rfl hch2
      · rw [stepThread_finished cfg tid ch
          ((handleCacheEmpty ⟨c⟩ reg).resp, (handleCacheEmpty ⟨c⟩ reg).err) htid hpct]
        exact ⟨hreg, hn, hchan, C1Phase.phB4 _ L hL hrole hpc hnext hmap hlk htr hct hfol⟩

/-- Running a schedule with no timer and no context items, and timely
arrival at every intermediate state, preserves the C1 invariant. -/
theorem C1Inv_runSched (reg : Registry) (c : String) (n : Nat) :
    ∀ (sched : List (Nat × SelChoice)) (cfg : Coordinator),
      C1Inv reg c n cfg →
      (∀ it ∈ sched, it.2 ≠ SelChoice.selTimer ∧ it.2 ≠ SelChoice.selCtx) →
      (∀ g ∈ runPrefixes cfg sched, arrivedInTime g) →
      C1Inv reg c n (runSched cfg sched) := by
  intro sched
  induction sched with
  | nil => intro cfg hinv _ _; exact hinv
  | cons it s ih =>
    intro cfg hinv hch harr
    have hmem : cfg ∈ runPrefixes cfg (it :: s) := List.mem_cons_self _ _
    have hit := hch it (List.mem_cons_self _ _)
    exact ih (stepThread cfg it.1 it.2)
      (C1Inv_step reg c n cfg it.1 it.2 hinv (harr cfg hmem) hit.1 hit.2)
      (fun x hx => hch x (List.mem_cons_of_mem _ hx))
      (fun g hg => harr g (List.mem_cons_of_mem _ hg))

/-- The C1 invariant holds initially when every caller targets channel
`c`. -/
theorem C1Inv_init (h : CacheEmptyHandler) (c : String)
    (chans : List (String × Option GoError)) (hc : ∀ p ∈ chans, p.1 = c) :
    C1Inv h.proxies c chans.length (initCoordinator h chans) := by
  refine ⟨rfl, rfl, ?_, ?_⟩
  · intro i hi
    dsimp only [initCoordinator, mkThread]
    rw [List.getD_eq_getElem chans ("", none) hi]
    exact hc _ (List.getElem_mem hi)
  · exact C1Phase.phA _ rfl rfl rfl rfl (fun i hi => ⟨rfl, rfl⟩)

/-- Claim C1: for N ≥ 1 concurrent `Handle` callers for the same channel,
when the backend answers within the wait bound and all callers arrive while
the single call is in flight — rendered untimed as: no timer branch and no
context branch fires, and no caller is still before `getOrCreateLock` after
the leader's cleanup — and every caller runs to completion, then exactly one
dispatch (with exactly its proxy calls) is performed and every caller
returns the same `(response, error)` pair, namely the dispatch outcome for
that channel. -/
theorem c1_single_flight_dedup (h : CacheEmptyHandler) (c : String)
    (chans : List (String × Option GoError)) (sched : List (Nat × SelChoice))
    (hn1 : 1 ≤ chans.length)
    (hc : ∀ p ∈ chans, p.1 = c)
    (hnosel : ∀ it ∈ sched, it.2 ≠ SelChoice.selTimer ∧ it.2 ≠ SelChoice.selCtx)
    (harr : ∀ g ∈ runPrefixes (initCoordinator h chans) sched, arrivedInTime g)
    (hfin : ∀ i, i < chans.length →
      ((runSched (initCoordinator h chans) sched).threads i).pc.isFinished = true) :
    (runSched (initCoordinator h chans) sched).dispatchTrace = [c] ∧
    (runSched (initCoordinator h chans) sched).callTrace =
      (handleCacheEmpty ⟨c⟩ h.proxies).calls ∧
    ∀ i, i < chans.length →
      ((runSched (initCoordinator h chans) sched).threads i).pc =
        ThreadPC.finished
          ((handleCacheEmpty ⟨c⟩ h.proxies).resp, (handleCacheEmpty ⟨c⟩ h.proxies).err) := by
  have hinv := C1Inv_runSched h.proxies c chans.length sched (initCoordinator h chans)
    (C1Inv_init h c chans hc) hnosel harr
  obtain ⟨hreg, hn, hchan, hph⟩ := hinv
  cases hph with
  | phA hnext hmap htr hct hth =>
    have hf := hfin 0 hn1
    rw [(hth 0 hn1).2] at hf
    simp [ThreadPC.isFinished] at hf
  | phB1 L hL hrole hpc hnext hmap hlk htr hct hfol =>
    have hf := hfin L hL
    rw [hpc] at hf
    simp [ThreadPC.isFinished] at hf
  | phB2 L hL hrole hpc hnext hmap hlk htr hct hfol =>
    have hf := hfin L hL
    rw [hpc] at hf
    simp [ThreadPC.isFinished] at hf
  | phB3 L hL hrole hpc hnext hmap hlk htr hct hfol =>
    have hf := hfin L hL
    rw [hpc] at hf
    simp [ThreadPC.isFinished] at hf
  | phB4 L hL hrole hpc hnext hmap hlk htr hct hfol =>
    refine ⟨htr, hct, ?_⟩
    intro i hi
    by_cases hiL : i = L
    · subst hiL
      exact hpc
    · rcases hfol i hi hiL with hcase | hcase | hcase
      · have hf := hfin i hi
        rw [hcase.2] at hf
        simp [ThreadPC.isFinished] at hf
      · have hf := hfin i hi
        rw [hcase.2] at hf
        simp [ThreadPC.isFinished] at hf
      · exact hcase.2.1

instance arrivedInTimeDecidable (cfg : Coordinator) : Decidable (arrivedInTime cfg) :=
  if h : anyPastCleanup cfg = true then
    match inferInstanceAs
      (Decidable (∀ i, i < cfg.nThreads → (cfg.threads i).pc ≠ ThreadPC.start)) with
    | isTrue ht => isTrue fun _ => ht
    | isFalse hf => isFalse fun hcon => hf (hcon h)
  else isTrue fun hcon => absurd hcon h

/-- Schedule of the C1 witness: install, join, dispatch and store, delete,
close, follower receives the shared result. -/
def schedC1 : List (Nat × SelChoice) :=
  [(0, SelChoice.go), (1, SelChoice.go), (0, SelChoice.go), (0, SelChoice.go),
    (0, SelChoice.go), (1, SelChoice.selDone)]

/-- Witness for C1: two callers for `"ch"`, one dispatch with one proxy
call, both finished with the same pair. -/
theorem c1_single_flight_dedup_witness :
    ((1 ≤ ([("ch", none), ("ch", none)] : List (String × Option GoError)).length) ∧
      (∀ p ∈ ([("ch", none), ("ch", none)] : List (String × Option GoError)), p.1 = "ch") ∧
      (∀ it ∈ schedC1, it.2 ≠ SelChoice.selTimer ∧ it.2 ≠ SelChoice.selCtx) ∧
      (∀ g ∈ runPrefixes (initCoordinator handlerTest [("ch", none), ("ch", none)]) schedC1,
        arrivedInTime g) ∧
      (∀ i, i < ([("ch", none), ("ch", none)] : List (String × Option GoError)).length →
        ((runSched (initCoordinator handlerTest [("ch", none), ("ch", none)]) schedC1).threads
          i).pc.isFinished = true)) ∧
    ((runSched (initCoordinator handlerTest [("ch", none), ("ch", none)]) schedC1).dispatchTrace =
        ["ch"] ∧
      (runSched (initCoordinator handlerTest [("ch", none), ("ch", none)]) schedC1).callTrace =
        (handleCacheEmpty ⟨"ch"⟩ handlerTest.proxies).calls ∧
      ∀ i, i < ([("ch", none), ("ch", none)] : List (String × Option GoError)).length →
        ((runSched (initCoordinator handlerTest [("ch", none), ("ch", none)]) schedC1).threads
          i).pc = ThreadPC.finished
            ((handleCacheEmpty ⟨"ch"⟩ handlerTest.proxies).resp,
              (handleCacheEmpty ⟨"ch"⟩ handlerTest.proxies).err)) :=
  ⟨⟨by decide, by decide, by decide, by decide, by decide⟩,
    c1_single_flight_dedup handlerTest "ch" [("ch", none), ("ch", none)] schedC1
      (by decide) (by decide) (by decide) (by decide) (by decide)⟩
